import Mathlib

/-!
Verification of the dopy/dolist reminder core: a shallow embedding of
`dolist/reminder_parser.py` (temporal expression parser, relative-time
formatter) and of the reminder service loop of `dolist/service.py` — the
construction of its due query over the custom DAL of `database.py`
(which raises), the per-row reschedule code, and the repair safeguard of
`dolist/tui.py` — together with proofs that settle the specification
claims.

Modelling conventions:
* A Python `datetime` is represented by its timestamp in microseconds since
  0001-01-01 00:00:00 (`Micro := Nat`).  For valid datetimes Python's
  field-lexicographic comparison coincides with timestamp order, `+ timedelta`
  is exact timestamp arithmetic, `replace(hour=h, minute=0, second=0,
  microsecond=0)` keeps the day and sets the time of day, and
  `datetime.weekday()` is the day index modulo 7 (day 0 = 0001-01-01 is a
  Monday, which Python maps to 0).  The `datetime(...)` constructor's
  `ValueError` on out-of-range fields is modelled by `mkDateTime?` returning
  `none`.
* Strings are `List Char`; the regular expressions of the source are
  translated branch by branch into deterministic matchers (all the character
  classes involved -- `\d`, `\s`, `\w`, `[a-z]`, `[a-zA-Z]` -- are pairwise
  disjoint where the regexes abut them, so greedy run-based matching is
  exact).  Character classes are the ASCII ones.
* The ambient mutable configuration value `day_start_hour` (read by
  `get_default_start_hour`) is passed explicitly as the `cfg` argument, and
  the ambient `datetime.now()` as the `base`/`now` argument.
-/

/-! ### Time arithmetic: microsecond timestamps -/

-- Timestamps (`Micro`) are plain `Nat` microsecond counts; we write `Nat`
-- in binders throughout (tactic support is keyed to the literal type). --

def usPerSec : Nat := 1000000
def usPerMin : Nat := 60000000
def usPerHour : Nat := 3600000000
def usPerDay : Nat := 86400000000

/-- Day number of a timestamp (days since 0001-01-01). -/
def dayIndex (t : Nat) : Nat := t / usPerDay

/-- Python `datetime.weekday()`: 0 = Monday ... 6 = Sunday.
0001-01-01 (day 0) is a Monday. -/
def weekdayOf (t : Nat) : Nat := dayIndex t % 7

/-- Python `dt.replace(hour=h, minute=mi, second=s, microsecond=0)`. -/
def replaceTime (t : Nat) (h mi s : Nat) : Nat :=
  dayIndex t * usPerDay + h * usPerHour + mi * usPerMin + s * usPerSec

/-! ### The proleptic Gregorian calendar -/

def isLeapYear (y : Nat) : Bool := (y % 4 == 0 && y % 100 != 0) || (y % 400 == 0)

def daysInMonth (y m : Nat) : Nat :=
  if m = 2 then (if isLeapYear y then 29 else 28)
  else if m = 4 ∨ m = 6 ∨ m = 9 ∨ m = 11 then 30
  else 31

def daysInYear (y : Nat) : Nat := if isLeapYear y then 366 else 365

/-- Days from 0001-01-01 to the first day of year `y` (for `y ≥ 1`). -/
def daysBeforeYear : Nat → Nat
  | 0 => 0
  | 1 => 0
  | y + 2 => daysBeforeYear (y + 1) + daysInYear (y + 1)

/-- Days from the first of January of year `y` to the first day of month `m`
(for `1 ≤ m ≤ 12`). -/
def daysBeforeMonth (y : Nat) : Nat → Nat
  | 0 => 0
  | 1 => 0
  | m + 2 => daysBeforeMonth y (m + 1) + daysInMonth y (m + 1)

/-- Day number of a calendar date (Python `date.toordinal() - 1`). -/
def dayNumOfYmd (y m d : Nat) : Nat :=
  daysBeforeYear y + daysBeforeMonth y m + (d - 1)

/-- Python's `datetime(year, month, day, hour, minute, second)` constructor:
`none` models the `ValueError` raised on out-of-range fields. -/
def mkDateTime? (y m d h mi s : Nat) : Option Nat :=
  if 1 ≤ y ∧ y ≤ 9999 ∧ 1 ≤ m ∧ m ≤ 12 ∧ 1 ≤ d ∧ d ≤ daysInMonth y m
      ∧ h ≤ 23 ∧ mi ≤ 59 ∧ s ≤ 59 then
    some (dayNumOfYmd y m d * usPerDay + h * usPerHour + mi * usPerMin + s * usPerSec)
  else none

/-- Strip whole years off a day count, starting at year `y`. -/
def yearSplit : Nat → Nat → Nat → Nat × Nat
  | 0, y, r => (y, r)
  | fuel + 1, y, r =>
    if daysInYear y ≤ r then yearSplit fuel (y + 1) (r - daysInYear y) else (y, r)

/-- Strip whole months (of year `y`) off a day count, starting at month `m`. -/
def monthSplit (y : Nat) : Nat → Nat → Nat → Nat × Nat
  | 0, m, r => (m, r)
  | fuel + 1, m, r =>
    if m < 12 ∧ daysInMonth y m ≤ r then monthSplit y fuel (m + 1) (r - daysInMonth y m)
    else (m, r)

/-- Calendar date of a day number (inverse of `dayNumOfYmd`); the field
extraction `dt.year`, `dt.month`, `dt.day` of the Python datetime. -/
def ymdOfDayNum (n : Nat) : Nat × Nat × Nat :=
  let p := yearSplit (n + 1) 1 n
  let q := monthSplit p.1 12 1 p.2
  (p.1, q.1, q.2 + 1)

def yearOf (t : Nat) : Nat := (ymdOfDayNum (dayIndex t)).1
def monthOf (t : Nat) : Nat := (ymdOfDayNum (dayIndex t)).2.1

/-! ### Calendar invariants -/

theorem daysInYear_pos (y : Nat) : 0 < daysInYear y := by
  unfold daysInYear; split <;> omega

theorem daysBeforeYear_succ (y : Nat) (hy : 1 ≤ y) :
    daysBeforeYear (y + 1) = daysBeforeYear y + daysInYear y := by
  match y, hy with
  | y + 1, _ => rfl

theorem daysBeforeMonth_succ (y m : Nat) (hm : 1 ≤ m) :
    daysBeforeMonth y (m + 1) = daysBeforeMonth y m + daysInMonth y m := by
  match m, hm with
  | m + 1, _ => rfl

theorem daysBeforeMonth_13 (y : Nat) :
    daysBeforeMonth y 12 + daysInMonth y 12 = daysInYear y := by
  cases h : isLeapYear y <;>
    simp [daysBeforeMonth, daysInMonth, daysInYear, h]

theorem yearSplit_spec (fuel : Nat) : ∀ y r, r < fuel → 1 ≤ y →
    daysBeforeYear (yearSplit fuel y r).1 + (yearSplit fuel y r).2
        = daysBeforeYear y + r
      ∧ (yearSplit fuel y r).2 < daysInYear (yearSplit fuel y r).1
      ∧ 1 ≤ (yearSplit fuel y r).1 := by
  induction fuel with
  | zero => intro y r hr; omega
  | succ fuel ih =>
    intro y r hr hy
    unfold yearSplit
    split
    · next hle =>
      have hpos := daysInYear_pos y
      have h1 := ih (y + 1) (r - daysInYear y) (by omega) (by omega)
      have h2 := daysBeforeYear_succ y hy
      refine ⟨?_, h1.2.1, h1.2.2⟩
      omega
    · next hle =>
      refine ⟨rfl, ?_, hy⟩
      show r < daysInYear y
      omega

theorem monthSplit_spec (y : Nat) (fuel : Nat) : ∀ m r, 1 ≤ m → m ≤ 12 → 12 - m < fuel →
    daysBeforeMonth y (monthSplit y fuel m r).1 + (monthSplit y fuel m r).2
        = daysBeforeMonth y m + r
      ∧ 1 ≤ (monthSplit y fuel m r).1 ∧ (monthSplit y fuel m r).1 ≤ 12
      ∧ (daysInMonth y (monthSplit y fuel m r).1 ≤ (monthSplit y fuel m r).2
          → (monthSplit y fuel m r).1 = 12) := by
  induction fuel with
  | zero => intro m r _ _ h; omega
  | succ fuel ih =>
    intro m r hm hm12 hfuel
    unfold monthSplit
    split
    · next hcond =>
      have h1 := ih (m + 1) (r - daysInMonth y m) (by omega) (by omega) (by omega)
      have h2 := daysBeforeMonth_succ y m hm
      refine ⟨by omega, h1.2.1, h1.2.2.1, h1.2.2.2⟩
    · next hcond =>
      refine ⟨rfl, hm, hm12, ?_⟩
      intro hle
      by_contra h12
      exact hcond ⟨by omega, hle⟩

/-- Main extraction invariant: `ymdOfDayNum` produces a valid calendar date
whose `dayNumOfYmd` is the original day number, and the day number lies
strictly before the first day of the following month. -/
theorem ymdOfDayNum_spec (n : Nat) :
    1 ≤ (ymdOfDayNum n).1
      ∧ 1 ≤ (ymdOfDayNum n).2.1 ∧ (ymdOfDayNum n).2.1 ≤ 12
      ∧ 1 ≤ (ymdOfDayNum n).2.2
      ∧ (ymdOfDayNum n).2.2 ≤ daysInMonth (ymdOfDayNum n).1 (ymdOfDayNum n).2.1
      ∧ n = daysBeforeYear (ymdOfDayNum n).1
            + daysBeforeMonth (ymdOfDayNum n).1 (ymdOfDayNum n).2.1
            + ((ymdOfDayNum n).2.2 - 1)
      ∧ n < daysBeforeYear (ymdOfDayNum n).1
            + daysBeforeMonth (ymdOfDayNum n).1 (ymdOfDayNum n).2.1
            + daysInMonth (ymdOfDayNum n).1 (ymdOfDayNum n).2.1 := by
  have hys := yearSplit_spec (n + 1) 1 n (by omega) (by omega)
  set p := yearSplit (n + 1) 1 n with hp
  have hms := monthSplit_spec p.1 12 1 p.2 (by omega) (by omega) (by omega)
  set q := monthSplit p.1 12 1 p.2 with hq
  have hdby1 : daysBeforeYear 1 = 0 := rfl
  have hdbm1 : daysBeforeMonth p.1 1 = 0 := rfl
  have hunfold : ymdOfDayNum n = (p.1, q.1, q.2 + 1) := rfl
  rw [hunfold]
  simp only
  -- rule out the month-12 overflow case using the year bound
  have h13 := daysBeforeMonth_13 p.1
  have hq2 : q.2 < daysInMonth p.1 q.1 := by
    by_contra hge
    have h12 : q.1 = 12 := hms.2.2.2 (by omega)
    rw [h12] at hge hms
    omega
  refine ⟨hys.2.2, hms.2.1, hms.2.2.1, by omega, by omega, by omega, by omega⟩

/-! ### `next_weekday` and `next_day_of_month` -/

/-- `reminder_parser.next_weekday`: next occurrence of weekday `wd`
(0 = Monday) at hour `hour?` (defaulting to the configured start hour
`cfg`). -/
def next_weekday (base : Nat) (wd : Nat) (hour? : Option Nat) (cfg : Nat) : Nat :=
  if (wd : Int) - (weekdayOf base : Int) ≤ 0 then
    if (wd : Int) - (weekdayOf base : Int) = 0
        ∧ base < replaceTime base (hour?.getD cfg) 0 0 then
      replaceTime base (hour?.getD cfg) 0 0
    else
      replaceTime (((base : Int)
        + ((wd : Int) - (weekdayOf base : Int) + 7) * (usPerDay : Int)).toNat)
        (hour?.getD cfg) 0 0
  else
    replaceTime (((base : Int)
      + ((wd : Int) - (weekdayOf base : Int)) * (usPerDay : Int)).toNat)
      (hour?.getD cfg) 0 0

/-- Second and third month tried by `next_day_of_month` (the `next_month` /
month-after lookahead with year rollover). -/
def nextMonthTry2 (ny nm day h : Nat) : Option Nat :=
  if nm + 1 > 12 then mkDateTime? (ny + 1) 1 day h 0 0
  else mkDateTime? ny (nm + 1) day h 0 0

def nextMonthTry (y m day h : Nat) : Option Nat :=
  if m + 1 > 12 then
    match mkDateTime? (y + 1) 1 day h 0 0 with
    | some r => some r
    | none => nextMonthTry2 (y + 1) 1 day h
  else
    match mkDateTime? y (m + 1) day h 0 0 with
    | some r => some r
    | none => nextMonthTry2 y (m + 1) day h

/-- `reminder_parser.next_day_of_month`: next occurrence of day-of-month
`day`, trying the current month (strictly future only), then the next month,
then the month after. -/
def next_day_of_month (base : Nat) (day : Nat) (hour? : Option Nat) (cfg : Nat) :
    Option Nat :=
  if 1 ≤ day ∧ day ≤ 31 then
    -- base.replace(day=day, hour=h, minute=0, second=0, microsecond=0);
    -- a ValueError (invalid day for the current month) falls through
    match mkDateTime? (yearOf base) (monthOf base) day (hour?.getD cfg) 0 0 with
    | some r =>
      if base < r then some r
      else nextMonthTry (yearOf base) (monthOf base) day (hour?.getD cfg)
    | none => nextMonthTry (yearOf base) (monthOf base) day (hour?.getD cfg)
  else none

theorem lt_succ_dayIndex_mul (t : Nat) : t < (dayIndex t + 1) * usPerDay := by
  unfold dayIndex usPerDay
  omega

theorem replaceTime_add_days_gt (base : Nat) (k h mi s : Nat) (hk : 1 ≤ k) :
    base < replaceTime (base + k * usPerDay) h mi s := by
  unfold replaceTime dayIndex usPerDay usPerHour usPerMin usPerSec
  have hdiv : (base + k * 86400000000) / 86400000000 = base / 86400000000 + k :=
    Nat.add_mul_div_right base k (by omega)
  rw [hdiv, Nat.add_mul]
  omega

/-- The weekday resolution rule always lands strictly after `base`. -/
theorem next_weekday_gt (base : Nat) (wd : Nat) (hour? : Option Nat) (cfg : Nat)
    (hwd : wd ≤ 6) : base < next_weekday base wd hour? cfg := by
  unfold next_weekday
  have hcw : weekdayOf base ≤ 6 := by
    have : dayIndex base % 7 < 7 := Nat.mod_lt _ (by omega)
    unfold weekdayOf
    omega
  split
  · next hle =>
    split
    · next heq => exact heq.2
    · next heq =>
      have htn : ((base : Int)
          + ((wd : Int) - (weekdayOf base : Int) + 7) * (usPerDay : Int)).toNat
          = base + ((wd : Int) - (weekdayOf base : Int) + 7).toNat * usPerDay := by
        unfold usPerDay
        omega
      rw [htn]
      exact replaceTime_add_days_gt base _ _ 0 0 (by omega)
  · next hgt =>
    have htn : ((base : Int)
        + ((wd : Int) - (weekdayOf base : Int)) * (usPerDay : Int)).toNat
        = base + ((wd : Int) - (weekdayOf base : Int)).toNat * usPerDay := by
      unfold usPerDay
      omega
    rw [htn]
    exact replaceTime_add_days_gt base _ _ 0 0 (by omega)

theorem mkDateTime?_some_lower (y m d h mi s r : Nat)
    (hr : mkDateTime? y m d h mi s = some r) :
    dayNumOfYmd y m d * usPerDay ≤ r ∧ 1 ≤ d ∧ d ≤ daysInMonth y m ∧ 1 ≤ m ∧ m ≤ 12 := by
  unfold mkDateTime? at hr
  split at hr
  · next hvalid =>
    injection hr with hr
    omega
  · exact absurd hr (by simp)

/-- Any date produced by the one- or two-month lookahead of
`next_day_of_month` lies strictly after `base`. -/
theorem nextMonthTry_gt (base : Nat) (day h r : Nat)
    (hr : nextMonthTry (yearOf base) (monthOf base) day h = some r) : base < r := by
  have hspec := ymdOfDayNum_spec (dayIndex base)
  set y := yearOf base with hy
  set m := monthOf base with hm
  have hy' : (ymdOfDayNum (dayIndex base)).1 = y := rfl
  have hm' : (ymdOfDayNum (dayIndex base)).2.1 = m := rfl
  rw [hy', hm'] at hspec
  -- the day index is strictly before the start of the following month
  have hbound : dayIndex base < daysBeforeYear y + daysBeforeMonth y m + daysInMonth y m := by
    omega
  have hbase : base < (daysBeforeYear y + daysBeforeMonth y m + daysInMonth y m) * usPerDay := by
    have h1 := lt_succ_dayIndex_mul base
    have h2 : (dayIndex base + 1) * usPerDay
        ≤ (daysBeforeYear y + daysBeforeMonth y m + daysInMonth y m) * usPerDay :=
      Nat.mul_le_mul_right _ (by omega)
    omega
  have hm1 : 1 ≤ m := hspec.2.1
  have hm12 : m ≤ 12 := hspec.2.2.1
  have hy1 : 1 ≤ y := hspec.1
  -- a helper: any constructed date in a month at-or-after the next month is big enough
  have key : ∀ y' m' r', daysBeforeYear y + daysBeforeMonth y m + daysInMonth y m
      ≤ daysBeforeYear y' + daysBeforeMonth y' m' →
      mkDateTime? y' m' day h 0 0 = some r' → base < r' := by
    intro y' m' r' hge hmk
    have hlow := mkDateTime?_some_lower y' m' day h 0 0 r' hmk
    have : (daysBeforeYear y + daysBeforeMonth y m + daysInMonth y m) * usPerDay
        ≤ dayNumOfYmd y' m' day * usPerDay := by
      apply Nat.mul_le_mul_right
      unfold dayNumOfYmd
      omega
    omega
  have hstart12 : m = 12 → daysBeforeYear y + daysBeforeMonth y m + daysInMonth y m
      = daysBeforeYear (y + 1) := by
    intro hm12'
    rw [daysBeforeYear_succ y hy1, hm12']
    have := daysBeforeMonth_13 y
    omega
  unfold nextMonthTry at hr
  by_cases h12 : m + 1 > 12
  · -- m = 12: next month is (y+1, 1), the month after is (y+1, 2)
    have hm12' : m = 12 := by omega
    rw [if_pos h12] at hr
    have hstart := hstart12 hm12'
    split at hr
    · next r0 hmk =>
      injection hr with hr
      subst hr
      refine key (y + 1) 1 r0 ?_ hmk
      have hdbm1 : daysBeforeMonth (y + 1) 1 = 0 := rfl
      omega
    · next hmk =>
      unfold nextMonthTry2 at hr
      rw [if_neg (by omega)] at hr
      refine key (y + 1) 2 r ?_ hr
      omega
  · -- m ≤ 11: next month is (y, m+1)
    rw [if_neg h12] at hr
    have hnext : daysBeforeYear y + daysBeforeMonth y m + daysInMonth y m
        = daysBeforeYear y + daysBeforeMonth y (m + 1) := by
      have := daysBeforeMonth_succ y m hm1
      omega
    split at hr
    · next r0 hmk =>
      injection hr with hr
      subst hr
      exact key y (m + 1) r0 (by omega) hmk
    · next hmk =>
      unfold nextMonthTry2 at hr
      by_cases h13 : m + 1 + 1 > 12
      · have hm11 : m = 11 := by omega
        rw [if_pos h13] at hr
        have hgoal : daysBeforeYear y + daysBeforeMonth y m + daysInMonth y m
            ≤ daysBeforeYear (y + 1) + daysBeforeMonth (y + 1) 1 := by
          rw [daysBeforeYear_succ y hy1]
          have h13' := daysBeforeMonth_13 y
          have hsucc : daysBeforeMonth y 12 = daysBeforeMonth y 11 + daysInMonth y 11 :=
            daysBeforeMonth_succ y 11 (by omega)
          have hdbm1 : daysBeforeMonth (y + 1) 1 = 0 := rfl
          rw [hm11] at *
          omega
        exact key (y + 1) 1 r hgoal hr
      · rw [if_neg h13] at hr
        have hgoal : daysBeforeYear y + daysBeforeMonth y m + daysInMonth y m
            ≤ daysBeforeYear y + daysBeforeMonth y (m + 1 + 1) := by
          have hsucc := daysBeforeMonth_succ y (m + 1) (by omega)
          omega
        exact key y (m + 1 + 1) r hgoal hr

/-- `next_day_of_month`, when it succeeds, lands strictly after `base`. -/
theorem next_day_of_month_gt (base : Nat) (day : Nat) (hour? : Option Nat) (cfg r : Nat)
    (hr : next_day_of_month base day hour? cfg = some r) : base < r := by
  unfold next_day_of_month at hr
  split at hr
  · next hday =>
    split at hr
    · next r0 hmk =>
      split at hr
      · next hgt =>
        injection hr with hr
        omega
      · exact nextMonthTry_gt base day _ r hr
    · next hmk => exact nextMonthTry_gt base day _ r hr
  · exact absurd hr (by simp)

/-! ### Character classes and string utilities

Strings are `List Char`.  The character classes are the ASCII core of the
corresponding Python/regex classes (`\d`, `\s`, `\w`, `[a-z]`, `[a-zA-Z]`,
`str.strip`, `str.lower`, `str.upper`); all the inputs the grammar accepts
are ASCII. -/

def isDigitC (c : Char) : Bool := 48 ≤ c.toNat && c.toNat ≤ 57
def isLowerC (c : Char) : Bool := 97 ≤ c.toNat && c.toNat ≤ 122
def isUpperC (c : Char) : Bool := 65 ≤ c.toNat && c.toNat ≤ 90
def isAlphaC (c : Char) : Bool := isLowerC c || isUpperC c
def isWordC (c : Char) : Bool := isAlphaC c || isDigitC c || c == '_'
def isWsC (c : Char) : Bool := c == ' ' || c == '\t' || c == '\n' || c == '\r'

def lowerChar (c : Char) : Char :=
  if isUpperC c then Char.ofNat (c.toNat + 32) else c

def upperChar (c : Char) : Char :=
  if isLowerC c then Char.ofNat (c.toNat - 32) else c

def toLowerL (l : List Char) : List Char := l.map lowerChar
def toUpperL (l : List Char) : List Char := l.map upperChar

/-- Python `str.strip()`. -/
def stripL (l : List Char) : List Char :=
  ((l.dropWhile isWsC).reverse.dropWhile isWsC).reverse

/-- Python `str.endswith(suf)`. -/
def endsWithL (l suf : List Char) : Bool :=
  decide (suf.length ≤ l.length) && (l.drop (l.length - suf.length) == suf)

/-- Python `int(...)` on a digit string. -/
def natOfDigits (l : List Char) : Nat :=
  l.foldl (fun a c => a * 10 + (c.toNat - 48)) 0

/-- Decimal rendering of a natural number (for message interpolation). -/
def natDigitsAux : Nat → Nat → List Char
  | 0, _ => []
  | fuel + 1, n =>
    if n < 10 then [Char.ofNat (48 + n)]
    else natDigitsAux fuel (n / 10) ++ [Char.ofNat (48 + n % 10)]

def natDigits (n : Nat) : List Char := natDigitsAux (n + 1) n

/-- Python `dict.get` over an association table. -/
def lookupL {α : Type} : List (List Char × α) → List Char → Option α
  | [], _ => none
  | (k, v) :: rest, key => if key = k then some v else lookupL rest key

/-! ### The static lookup tables of `reminder_parser.py` -/

def canonicalUnits : List (List Char) :=
  ["seconds".toList, "minutes".toList, "hours".toList, "days".toList, "weeks".toList,
   "months".toList, "quarters".toList, "years".toList, "decades".toList]

def UNIT_ABBREV : List (List Char × List Char) :=
  [("sec".toList, "seconds".toList), ("secs".toList, "seconds".toList),
   ("s".toList, "seconds".toList), ("second".toList, "seconds".toList),
   ("min".toList, "minutes".toList), ("mins".toList, "minutes".toList),
   ("m".toList, "minutes".toList), ("minute".toList, "minutes".toList),
   ("hr".toList, "hours".toList), ("hrs".toList, "hours".toList),
   ("h".toList, "hours".toList), ("ho".toList, "hours".toList),
   ("hour".toList, "hours".toList),
   ("d".toList, "days".toList), ("day".toList, "days".toList),
   ("w".toList, "weeks".toList), ("wk".toList, "weeks".toList),
   ("wks".toList, "weeks".toList), ("week".toList, "weeks".toList),
   ("mo".toList, "months".toList), ("mos".toList, "months".toList),
   ("month".toList, "months".toList),
   ("q".toList, "quarters".toList), ("qtr".toList, "quarters".toList),
   ("quarter".toList, "quarters".toList),
   ("y".toList, "years".toList), ("yr".toList, "years".toList),
   ("yrs".toList, "years".toList), ("year".toList, "years".toList),
   ("decade".toList, "decades".toList), ("decades".toList, "decades".toList)]

def WEEKDAY_NAMES : List (List Char × Nat) :=
  [("monday".toList, 0), ("mon".toList, 0), ("tuesday".toList, 1), ("tue".toList, 1),
   ("wednesday".toList, 2), ("wed".toList, 2), ("thursday".toList, 3), ("thu".toList, 3),
   ("friday".toList, 4), ("fri".toList, 4), ("saturday".toList, 5), ("sat".toList, 5),
   ("sunday".toList, 6), ("sun".toList, 6)]

def MONTH_NAMES : List (List Char × Nat) :=
  [("jan".toList, 1), ("january".toList, 1), ("feb".toList, 2), ("february".toList, 2),
   ("mar".toList, 3), ("march".toList, 3), ("apr".toList, 4), ("april".toList, 4),
   ("may".toList, 5), ("jun".toList, 6), ("june".toList, 6), ("jul".toList, 7),
   ("july".toList, 7), ("aug".toList, 8), ("august".toList, 8), ("sep".toList, 9),
   ("sept".toList, 9), ("september".toList, 9), ("oct".toList, 10),
   ("october".toList, 10), ("nov".toList, 11), ("november".toList, 11),
   ("dec".toList, 12), ("december".toList, 12)]

/-- `reminder_parser.normalize_unit`. -/
def normalize_unit (u : List Char) : Option (List Char) :=
  if stripL (toLowerL u) ∈ canonicalUnits then some (stripL (toLowerL u))
  else lookupL UNIT_ABBREV (stripL (toLowerL u))

/-- `reminder_parser.parse_time_part`: parse `'9'`, `'14'`, `'9PM'`, `'21'`
into an hour in 24-hour format. -/
def parse_time_part (ts : List Char) : Option Nat :=
  if toUpperL (stripL ts) ≠ [] ∧ (toUpperL (stripL ts)).all isDigitC then
    if natOfDigits (toUpperL (stripL ts)) ≤ 23 then
      some (natOfDigits (toUpperL (stripL ts)))
    else none
  else if (toUpperL (stripL ts)).takeWhile isDigitC ≠ []
      ∧ ((toUpperL (stripL ts)).dropWhile isDigitC = "AM".toList
         ∨ (toUpperL (stripL ts)).dropWhile isDigitC = "PM".toList) then
    if 1 ≤ natOfDigits ((toUpperL (stripL ts)).takeWhile isDigitC)
        ∧ natOfDigits ((toUpperL (stripL ts)).takeWhile isDigitC) ≤ 12 then
      if (toUpperL (stripL ts)).dropWhile isDigitC = "AM".toList then
        some (if natOfDigits ((toUpperL (stripL ts)).takeWhile isDigitC) = 12 then 0
              else natOfDigits ((toUpperL (stripL ts)).takeWhile isDigitC))
      else
        some (if natOfDigits ((toUpperL (stripL ts)).takeWhile isDigitC) = 12 then 12
              else natOfDigits ((toUpperL (stripL ts)).takeWhile isDigitC) + 12)
    else none
  else none

/-! ### Branch matchers

One deterministic matcher per regular expression of `parse_reminder`,
translated exactly (run-based matching is equivalent here because the
character classes on the two sides of each boundary are disjoint). -/

/-- `^next\s+(\w+)$` -/
def matchNext (l : List Char) : Option (List Char) :=
  if "next".toList.isPrefixOf l then
    if (l.drop 4).takeWhile isWsC ≠ [] ∧ (l.drop 4).dropWhile isWsC ≠ []
        ∧ ((l.drop 4).dropWhile isWsC).all isWordC then
      some ((l.drop 4).dropWhile isWsC)
    else none
  else none

def digit2 (a b : Char) : Nat := (a.toNat - 48) * 10 + (b.toNat - 48)

/-- `^(\d{4})-(\d{2})-(\d{2})[Tt\s](\d{2}):(\d{2}):(\d{2})$` -/
def matchISOdt (l : List Char) : Option (Nat × Nat × Nat × Nat × Nat × Nat) :=
  match l with
  | [y1, y2, y3, y4, c1, m1, m2, c2, d1, d2, sep, h1, h2, c3, i1, i2, c4, s1, s2] =>
    if [y1, y2, y3, y4, m1, m2, d1, d2, h1, h2, i1, i2, s1, s2].all isDigitC
        ∧ c1 = '-' ∧ c2 = '-' ∧ (sep = 'T' ∨ sep = 't' ∨ isWsC sep)
        ∧ c3 = ':' ∧ c4 = ':' then
      some (natOfDigits [y1, y2, y3, y4], digit2 m1 m2, digit2 d1 d2,
            digit2 h1 h2, digit2 i1 i2, digit2 s1 s2)
    else none
  | _ => none

/-- `^(\d{4})-(\d{2})-(\d{2})$` -/
def matchISOd (l : List Char) : Option (Nat × Nat × Nat) :=
  match l with
  | [y1, y2, y3, y4, c1, m1, m2, c2, d1, d2] =>
    if [y1, y2, y3, y4, m1, m2, d1, d2].all isDigitC ∧ c1 = '-' ∧ c2 = '-' then
      some (natOfDigits [y1, y2, y3, y4], digit2 m1 m2, digit2 d1 d2)
    else none
  | _ => none

/-- The time token `\d{1,2}(?:AM|PM|am|pm)?` (anchored to the end). -/
def matchTimeTok (t : List Char) : Bool :=
  decide (1 ≤ (t.takeWhile isDigitC).length)
    && decide ((t.takeWhile isDigitC).length ≤ 2)
    && ((t.dropWhile isDigitC).isEmpty
        || t.dropWhile isDigitC == "am".toList || t.dropWhile isDigitC == "pm".toList
        || t.dropWhile isDigitC == "AM".toList || t.dropWhile isDigitC == "PM".toList)

/-- `^(\d{1,2})\s+([a-z]+)/(\d{2,4})\s+(\d{1,2}(?:AM|PM|am|pm)?)$`; captures
(day digits, month name, year digits, time token). -/
def matchFDT (l : List Char) : Option (List Char × List Char × List Char × List Char) :=
  match (l.dropWhile isDigitC).dropWhile isWsC |>.dropWhile isLowerC with
  | '/' :: r4 =>
    if 1 ≤ (l.takeWhile isDigitC).length ∧ (l.takeWhile isDigitC).length ≤ 2
        ∧ (l.dropWhile isDigitC).takeWhile isWsC ≠ []
        ∧ ((l.dropWhile isDigitC).dropWhile isWsC).takeWhile isLowerC ≠ []
        ∧ 2 ≤ (r4.takeWhile isDigitC).length ∧ (r4.takeWhile isDigitC).length ≤ 4
        ∧ (r4.dropWhile isDigitC).takeWhile isWsC ≠ []
        ∧ matchTimeTok ((r4.dropWhile isDigitC).dropWhile isWsC) then
      some (l.takeWhile isDigitC,
            ((l.dropWhile isDigitC).dropWhile isWsC).takeWhile isLowerC,
            r4.takeWhile isDigitC,
            (r4.dropWhile isDigitC).dropWhile isWsC)
    else none
  | _ => none

/-- `^(\d{1,2})\s+([a-z]+)/(\d{2,4})$`; captures (day, month name, year). -/
def matchFD (l : List Char) : Option (List Char × List Char × List Char) :=
  match (l.dropWhile isDigitC).dropWhile isWsC |>.dropWhile isLowerC with
  | '/' :: r4 =>
    if 1 ≤ (l.takeWhile isDigitC).length ∧ (l.takeWhile isDigitC).length ≤ 2
        ∧ (l.dropWhile isDigitC).takeWhile isWsC ≠ []
        ∧ ((l.dropWhile isDigitC).dropWhile isWsC).takeWhile isLowerC ≠ []
        ∧ 2 ≤ (r4.takeWhile isDigitC).length ∧ (r4.takeWhile isDigitC).length ≤ 4
        ∧ r4.dropWhile isDigitC = [] then
      some (l.takeWhile isDigitC,
            ((l.dropWhile isDigitC).dropWhile isWsC).takeWhile isLowerC,
            r4.takeWhile isDigitC)
    else none
  | _ => none

/-- `^(\d{1,2})\s+([a-z]+)$`; captures (day digits, letters). -/
def matchMonthDay (l : List Char) : Option (List Char × List Char) :=
  if 1 ≤ (l.takeWhile isDigitC).length ∧ (l.takeWhile isDigitC).length ≤ 2
      ∧ (l.dropWhile isDigitC).takeWhile isWsC ≠ []
      ∧ (l.dropWhile isDigitC).dropWhile isWsC ≠ []
      ∧ ((l.dropWhile isDigitC).dropWhile isWsC).all isLowerC then
    some (l.takeWhile isDigitC, (l.dropWhile isDigitC).dropWhile isWsC)
  else none

/-- `^([a-z]+)\s+(\d{1,2}(?:AM|PM|am|pm)?)$`; captures (letters, time token). -/
def matchWdTime (l : List Char) : Option (List Char × List Char) :=
  if l.takeWhile isLowerC ≠ []
      ∧ (l.dropWhile isLowerC).takeWhile isWsC ≠ []
      ∧ matchTimeTok ((l.dropWhile isLowerC).dropWhile isWsC) then
    some (l.takeWhile isLowerC, (l.dropWhile isLowerC).dropWhile isWsC)
  else none

/-- `^(\d+)\s+([a-zA-Z]+)$`; captures (digits, unit letters). -/
def matchNumUnit (l : List Char) : Option (List Char × List Char) :=
  if l.takeWhile isDigitC ≠ []
      ∧ (l.dropWhile isDigitC).takeWhile isWsC ≠ []
      ∧ (l.dropWhile isDigitC).dropWhile isWsC ≠ []
      ∧ ((l.dropWhile isDigitC).dropWhile isWsC).all isAlphaC then
    some (l.takeWhile isDigitC, (l.dropWhile isDigitC).dropWhile isWsC)
  else none

/-! ### The parser -/

/-- The distinct failure messages of `parse_reminder`, one constructor per
`return None, <message>, None` site (payloads carry the interpolated data). -/
inductive PErr : Type where
  /-- "Reminder text is empty" -/
  | emptyText : PErr
  /-- "Unknown unit in 'next {unit}'" -/
  | unknownNextUnit : List Char → PErr
  /-- "Specified datetime is in the past" -/
  | pastDatetime : PErr
  /-- "Specified date is in the past" -/
  | pastDate : PErr
  /-- "Invalid ISO datetime: {e}" -/
  | invalidISODatetime : PErr
  /-- "Invalid ISO date: {e}" -/
  | invalidISODate : PErr
  /-- "Invalid date: {e}" -/
  | invalidDate : PErr
  /-- "Unknown month: {month_str}" -/
  | unknownMonth : List Char → PErr
  /-- "Invalid time: {time_str}" -/
  | invalidTime : List Char → PErr
  /-- "Unknown time unit: {unit}" -/
  | unknownUnit : List Char → PErr
  /-- "Unsupported unit: {normalized}" (unreachable in the source) -/
  | unsupportedUnit : List Char → PErr
  /-- "Invalid day of month: {day}" -/
  | invalidDayOfMonth : Nat → PErr
  /-- "Could not parse reminder: '{text}'" -/
  | unparseable : List Char → PErr
deriving DecidableEq

/-- Branch 1: literal `"today"` (15:00 today, or tomorrow if already past). -/
def branchToday (l : List Char) (base : Nat) : Option (Except PErr Nat) :=
  if l = "today".toList then
    some (.ok (if replaceTime base 15 0 0 ≤ base then replaceTime base 15 0 0 + usPerDay
               else replaceTime base 15 0 0))
  else none

/-- Branch 2: literal `"tomorrow"` (09:00 plus one day). -/
def branchTomorrow (l : List Char) (base : Nat) : Option (Except PErr Nat) :=
  if l = "tomorrow".toList then some (.ok (replaceTime base 9 0 0 + usPerDay))
  else none

/-- Branch 3: `"next <unit>"`. -/
def branchNext (l : List Char) (base : Nat) : Option (Except PErr Nat) :=
  match matchNext l with
  | none => none
  | some u => some (
      match normalize_unit u with
      | some cu =>
        if cu = "hours".toList then .ok (base + usPerHour)
        else if cu = "days".toList then .ok (base + usPerDay)
        else if cu = "weeks".toList then .ok (base + 7 * usPerDay)
        else if cu = "months".toList then .ok (base + 30 * usPerDay)
        else if cu = "quarters".toList then .ok (base + 90 * usPerDay)
        else if cu = "years".toList then .ok (base + 365 * usPerDay)
        else if cu = "decades".toList then .ok (base + 3650 * usPerDay)
        else .error (.unknownNextUnit u)
      | none => .error (.unknownNextUnit u))

/-- Branch 4: ISO datetime. -/
def branchISOdt (l : List Char) (base : Nat) : Option (Except PErr Nat) :=
  match matchISOdt l with
  | none => none
  | some (y, mo, d, h, mi, s) => some (
      match mkDateTime? y mo d h mi s with
      | none => .error .invalidISODatetime
      | some r => if r ≤ base then .error .pastDatetime else .ok r)

/-- Branch 5: ISO date (at the configured default start hour). -/
def branchISOd (l : List Char) (base cfg : Nat) : Option (Except PErr Nat) :=
  match matchISOd l with
  | none => none
  | some (y, mo, d) => some (
      match mkDateTime? y mo d cfg 0 0 with
      | none => .error .invalidISODate
      | some r => if r ≤ base then .error .pastDate else .ok r)

/-- Branch 6: `"<day> <monthname>/<year> <time>"`. -/
def branchFDT (l : List Char) (base : Nat) : Option (Except PErr Nat) :=
  match matchFDT l with
  | none => none
  | some (ds, ms, ys, tt) => some (
      match lookupL MONTH_NAMES ms with
      | none => .error (.unknownMonth ms)
      | some mo =>
        match parse_time_part tt with
        | none => .error (.invalidTime tt)
        | some h =>
          match mkDateTime?
              (if natOfDigits ys < 100 then natOfDigits ys + 2000 else natOfDigits ys)
              mo (natOfDigits ds) h 0 0 with
          | none => .error .invalidDate
          | some r => if r ≤ base then .error .pastDatetime else .ok r)

/-- Branch 7: `"<day> <monthname>/<year>"`. -/
def branchFD (l : List Char) (base cfg : Nat) : Option (Except PErr Nat) :=
  match matchFD l with
  | none => none
  | some (ds, ms, ys) => some (
      match lookupL MONTH_NAMES ms with
      | none => .error (.unknownMonth ms)
      | some mo =>
        match mkDateTime?
            (if natOfDigits ys < 100 then natOfDigits ys + 2000 else natOfDigits ys)
            mo (natOfDigits ds) cfg 0 0 with
        | none => .error .invalidDate
        | some r => if r ≤ base then .error .pastDate else .ok r)

/-- Branch 8: `"<day> <monthname>"` — this year, else next year.  An unknown
month name falls through to the later branches (the source `pass`es). -/
def branchMonthDay (l : List Char) (base cfg : Nat) : Option (Except PErr Nat) :=
  match matchMonthDay l with
  | none => none
  | some (ds, ms) =>
    match lookupL MONTH_NAMES ms with
    | none => none
    | some mo => some (
        match mkDateTime? (yearOf base) mo (natOfDigits ds) cfg 0 0 with
        | none => .error .invalidDate
        | some r =>
          if r ≤ base then
            match mkDateTime? (yearOf base + 1) mo (natOfDigits ds) cfg 0 0 with
            | none => .error .invalidDate
            | some r2 => .ok r2
          else .ok r)

/-- Branch 9: `"<weekday> <time>"`.  An unknown weekday falls through. -/
def branchWdTime (l : List Char) (base cfg : Nat) : Option (Except PErr Nat) :=
  match matchWdTime l with
  | none => none
  | some (ws, tt) =>
    match lookupL WEEKDAY_NAMES ws with
    | none => none
    | some wd => some (
        match parse_time_part tt with
        | none => .error (.invalidTime tt)
        | some h => .ok (next_weekday base wd (some h) cfg))

/-- Branch 10: a bare weekday name. -/
def branchWdBare (l : List Char) (base cfg : Nat) : Option (Except PErr Nat) :=
  match lookupL WEEKDAY_NAMES l with
  | none => none
  | some wd => some (.ok (next_weekday base wd none cfg))

/-- Branch 11: `"<number> <unit>"`. -/
def branchNumUnit (l : List Char) (base : Nat) : Option (Except PErr Nat) :=
  match matchNumUnit l with
  | none => none
  | some (ds, us) => some (
      match normalize_unit us with
      | none => .error (.unknownUnit us)
      | some cu =>
        if cu = "seconds".toList then .ok (base + natOfDigits ds * usPerSec)
        else if cu = "minutes".toList then .ok (base + natOfDigits ds * usPerMin)
        else if cu = "hours".toList then .ok (base + natOfDigits ds * usPerHour)
        else if cu = "days".toList then .ok (base + natOfDigits ds * usPerDay)
        else if cu = "weeks".toList then .ok (base + natOfDigits ds * (7 * usPerDay))
        else if cu = "months".toList then .ok (base + natOfDigits ds * (30 * usPerDay))
        else if cu = "quarters".toList then .ok (base + natOfDigits ds * (90 * usPerDay))
        else if cu = "years".toList then .ok (base + natOfDigits ds * (365 * usPerDay))
        else if cu = "decades".toList then .ok (base + natOfDigits ds * (3650 * usPerDay))
        else .error (.unsupportedUnit cu))

/-- Branch 12: a bare integer, read as a day of month. -/
def branchDom (l : List Char) (base cfg : Nat) : Option (Except PErr Nat) :=
  if l ≠ [] ∧ l.all isDigitC then
    some (match next_day_of_month base (natOfDigits l) none cfg with
      | none => .error (.invalidDayOfMonth (natOfDigits l))
      | some r => .ok r)
  else none

/-- The branch cascade of `parse_reminder` on the preprocessed text, in the
source's priority order (first match wins). -/
def parseCore (l : List Char) (base cfg : Nat) : Except PErr Nat :=
  ((((((((((((branchToday l base).orElse (fun _ => branchTomorrow l base)).orElse
    (fun _ => branchNext l base)).orElse
    (fun _ => branchISOdt l base)).orElse
    (fun _ => branchISOd l base cfg)).orElse
    (fun _ => branchFDT l base)).orElse
    (fun _ => branchFD l base cfg)).orElse
    (fun _ => branchMonthDay l base cfg)).orElse
    (fun _ => branchWdTime l base cfg)).orElse
    (fun _ => branchWdBare l base cfg)).orElse
    (fun _ => branchNumUnit l base)).orElse
    (fun _ => branchDom l base cfg)).getD (.error (.unparseable l))

/-- The preprocessed text: strip, lowercase, and remove a trailing
`" repeat"` (re-stripping, as the source does). -/
def effText (raw : List Char) : List Char :=
  if endsWithL (toLowerL (stripL raw)) " repeat".toList then
    stripL ((toLowerL (stripL raw)).take ((toLowerL (stripL raw)).length - 7))
  else toLowerL (stripL raw)

/-- The recorded repeat interval (the stripped text), when the trailing
`" repeat"` keyword is present. -/
def repeatOf (raw : List Char) : Option (List Char) :=
  if endsWithL (toLowerL (stripL raw)) " repeat".toList then
    some (stripL ((toLowerL (stripL raw)).take ((toLowerL (stripL raw)).length - 7)))
  else none

/-- `reminder_parser.parse_reminder`: returns
`(datetime?, error_message?, repeat_interval?)`. -/
def parse_reminder (raw : List Char) (base cfg : Nat) :
    Option Nat × Option PErr × Option (List Char) :=
  if raw = [] then (none, some .emptyText, none)
  else
    match parseCore (effText raw) base cfg with
    | .ok r => (some r, none, repeatOf raw)
    | .error e => (none, some e, none)

/-! ### The relative-time formatter -/

/-- `reminder_parser.get_time_until`, with the ambient `datetime.now()` made
an explicit `now` argument.  `int(diff.total_seconds())` is modelled as exact
integer division (exact for all spans below 2^53 microseconds). -/
def get_time_until (dt now : Nat) : List Char :=
  if dt < now then "overdue".toList
  else
    if (dt - now) / usPerSec < 60 then
      "in ".toList ++ natDigits ((dt - now) / usPerSec) ++ " second".toList
        ++ (if (dt - now) / usPerSec ≠ 1 then "s".toList else [])
    else if (dt - now) / usPerSec < 3600 then
      "in ".toList ++ natDigits ((dt - now) / usPerSec / 60) ++ " minute".toList
        ++ (if (dt - now) / usPerSec / 60 ≠ 1 then "s".toList else [])
    else if (dt - now) / usPerSec < 86400 then
      "in ".toList ++ natDigits ((dt - now) / usPerSec / 3600) ++ " hour".toList
        ++ (if (dt - now) / usPerSec / 3600 ≠ 1 then "s".toList else [])
    else if (dt - now) / usPerSec < 604800 then
      "in ".toList ++ natDigits ((dt - now) / usPerSec / 86400) ++ " day".toList
        ++ (if (dt - now) / usPerSec / 86400 ≠ 1 then "s".toList else [])
    else
      "in ".toList ++ natDigits ((dt - now) / usPerSec / 604800) ++ " week".toList
        ++ (if (dt - now) / usPerSec / 604800 ≠ 1 then "s".toList else [])

/-- Modelled from the spec (§4.3 `format_relative`, boundary as amended):
the largest applicable unit among seconds/minutes/hours/days/weeks by strict
integer division, pluralized, rendered as `"in {n} {unit}"`, over the elapsed
whole seconds. -/
def formatRelativeSpec (s : Nat) : List Char :=
  if s < 60 then
    "in ".toList ++ natDigits s ++ " second".toList ++ (if s ≠ 1 then "s".toList else [])
  else if s < 3600 then
    "in ".toList ++ natDigits (s / 60) ++ " minute".toList
      ++ (if s / 60 ≠ 1 then "s".toList else [])
  else if s < 86400 then
    "in ".toList ++ natDigits (s / 3600) ++ " hour".toList
      ++ (if s / 3600 ≠ 1 then "s".toList else [])
  else if s < 604800 then
    "in ".toList ++ natDigits (s / 86400) ++ " day".toList
      ++ (if s / 86400 ≠ 1 then "s".toList else [])
  else
    "in ".toList ++ natDigits (s / 604800) ++ " week".toList
      ++ (if s / 604800 ≠ 1 then "s".toList else [])

/-! ### The service loop

`service.run_service_loop` (and its multi-database variant) selects the due
tasks each tick with the query expression

  `(not tasks_table.deleted) & (tasks_table.reminder_timestamp is not None)
   & (tasks_table.reminder_timestamp <= now)
   & ~(tasks_table.status.belongs(["done", "cancel"]))`

over the custom DAL of `database.py`.  Evaluated with Python semantics this
expression crashes: `tasks_table.deleted` is a (truthy) `Field` object, so
`not tasks_table.deleted` is the plain bool `False`, and
`tasks_table.reminder_timestamp is not None` is the plain bool `True`;
`False & True` is `False`, and `False & <Condition>` asks `bool.__and__`
(NotImplemented) and then the reflected `Condition.__rand__`, which
`database.py` does not define — a `TypeError` is raised while the query is
being built, the loop's `except Exception` handler re-raises it, and a tick
never selects, fires, reschedules or clears anything.  The model below
embeds this evaluation; the per-row reschedule code further down the loop
body (`service.py` lines 242-272) is transliterated as `processDueTask` so
its (unreachable) behaviour can also be examined, and the repair safeguard
of `tui.py` is modelled as `tuiSafeguard`. -/

structure TaskRec : Type where
  deleted : Bool
  status : List Char
  reminder : Option (List Char)
  reminder_timestamp : Option Nat
  reminder_repeat : Option (List Char)
deriving DecidableEq

/-- The terminal statuses named by the due query. -/
def terminalStatuses : List (List Char) := ["done".toList, "cancel".toList]

/-- Python exceptions arising while a query is built or executed. -/
inductive PyErr : Type where
  | typeError : PyErr
  | attributeError : PyErr
deriving DecidableEq

/-- The condition objects of `database.py` that the due query builds:
`Field <= value` (`Condition`), `Field.belongs(values)` (`Condition` with
`IN`), `NotCondition`, and `CompoundCondition(_, AND, _)`; `boolLeaf` is a
plain-bool right operand absorbed by `Condition.__and__`, which accepts any
operand. -/
inductive DalCond : Type where
  | le (field : List Char) (value : Nat) : DalCond
  | inList (field : List Char) (values : List (List Char)) : DalCond
  | notC (c : DalCond) : DalCond
  | andC (l r : DalCond) : DalCond
  | boolLeaf (b : Bool) : DalCond
deriving DecidableEq

/-- Truth of a built condition against a task row, following the `to_sql`
semantics of `database.py` on the fields the due query touches (a NULL
timestamp satisfies no `<=` comparison). -/
def dalMatches : DalCond → TaskRec → Bool
  | .le _f v, t =>
    match t.reminder_timestamp with
    | some ts => decide (ts ≤ v)
    | none => false
  | .inList _f vals, t => decide (t.status ∈ vals)
  | .notC c, t => !(dalMatches c t)
  | .andC l r, t => dalMatches l t && dalMatches r t
  | .boolLeaf b, _ => b

/-- A Python value occurring in the due-query expression: a plain bool
(from `not field` and `field is not None`) or a DAL condition object. -/
inductive PyVal : Type where
  | bool (b : Bool) : PyVal
  | cond (c : DalCond) : PyVal
deriving DecidableEq

/-- Python `x & y` over these values.  `bool & bool` is bitwise-and of
bools; `bool & condition` tries `bool.__and__` (NotImplemented) and then
the reflected `Condition.__rand__`, which `database.py` never defines, so
it raises `TypeError`; `condition & y` calls `Condition.__and__`, which
builds a `CompoundCondition` from any right operand. -/
def pyAnd : PyVal → PyVal → Except PyErr PyVal
  | .bool a, .bool b => .ok (.bool (a && b))
  | .bool _, .cond _ => .error .typeError
  | .cond a, .bool b => .ok (.cond (.andC a (.boolLeaf b)))
  | .cond a, .cond b => .ok (.cond (.andC a b))

/-- The due-query expression of `run_service_loop` (`service.py` lines
205-210), evaluated left to right with Python semantics:
`not tasks_table.deleted` is `False`, `tasks_table.reminder_timestamp is
not None` is `True`, and the two comparisons build condition objects. -/
def buildDueQuery (now : Nat) : Except PyErr PyVal := do
  let a ← pyAnd (.bool false) (.bool true)
  let b ← pyAnd a (.cond (.le "reminder_timestamp".toList now))
  pyAnd b (.cond (.notC (.inList "status".toList terminalStatuses)))

/-- The reschedule code for one selected row (`service.py` lines 242-272),
transliterated.  Python truthiness: a present but empty `reminder_repeat`
string is falsy and is treated as a one-time reminder.  (In the source this
code is unreachable: the query that would select rows raises first.) -/
def processDueTask (t : TaskRec) (now cfg : Nat) : TaskRec :=
  match t.reminder_repeat with
  | some rr =>
    if rr.isEmpty then { t with reminder_timestamp := none }
    else
      match (parse_reminder rr now cfg).1 with
      | some dt => { t with reminder_timestamp := some dt }
      | none => { t with reminder_timestamp := none }
  | none => { t with reminder_timestamp := none }

/-- One body iteration ("tick") of `run_service_loop`: build the due query,
select the matching rows, apply the reschedule step to each and leave the
rest untouched.  A plain-bool query would crash `select()` anyway (its
`Query.table` is `None`, giving `AttributeError`); in fact evaluation never
gets that far — `buildDueQuery` raises `TypeError`, which the loop handler
re-raises, so no tick ever completes. -/
def runServiceTick (tasks : List TaskRec) (now cfg : Nat) :
    Except PyErr (List TaskRec) :=
  (buildDueQuery now).bind (fun q =>
    match q with
    | .cond c =>
      .ok (tasks.map (fun t => if dalMatches c t then processDueTask t now cfg else t))
    | .bool _ => .error .attributeError)

/-- Python `a or b` over optional strings (`None` and the empty string are
falsy). -/
def pyOr (a b : Option (List Char)) : Option (List Char) :=
  match a with
  | some s => if s.isEmpty then b else some s
  | none => b

/-- The repair safeguard of `tui.py` ("Safeguard" block of the table
refresh): when a rendered task row has reminder text (truthy) but a missing
timestamp, re-parse the text against the ambient now; on success, persist
the recovered timestamp together with, via Python `or`, the parsed repeat
interval (keeping the stored one when the parse yields none). -/
def tuiSafeguard (t : TaskRec) (now cfg : Nat) : TaskRec :=
  match t.reminder, t.reminder_timestamp with
  | some txt, none =>
    if txt.isEmpty then t
    else
      match parse_reminder txt now cfg with
      | (some dt, none, rep) =>
        { t with reminder_timestamp := some dt,
                 reminder_repeat := pyOr rep t.reminder_repeat }
      | _ => t
  | _, _ => t

/-! ### List helper lemmas -/

theorem dropWhile_eq_nil_of_all {p : Char → Bool} {l : List Char}
    (h : ∀ c ∈ l, p c = true) : l.dropWhile p = [] := by
  induction l with
  | nil => rfl
  | cons a t ih =>
    rw [List.dropWhile_cons]
    rw [h a (by simp)]
    simp only [if_true]
    exact ih (fun c hc => h c (by simp [hc]))

theorem dropWhile_cons_of_neg {p : Char → Bool} {a : Char} {l : List Char}
    (h : p a = false) : (a :: l).dropWhile p = a :: l := by
  rw [List.dropWhile_cons, h]
  simp

theorem takeWhile_cons_of_neg {p : Char → Bool} {a : Char} {l : List Char}
    (h : p a = false) : (a :: l).takeWhile p = [] := by
  rw [List.takeWhile_cons, h]
  simp

theorem takeWhile_append_all {p : Char → Bool} {l₁ : List Char} (l₂ : List Char)
    (h : ∀ c ∈ l₁, p c = true) :
    (l₁ ++ l₂).takeWhile p = l₁ ++ l₂.takeWhile p
      ∧ (l₁ ++ l₂).dropWhile p = l₂.dropWhile p := by
  induction l₁ with
  | nil => simp
  | cons a t ih =>
    have ha : p a = true := h a (by simp)
    have iht := ih (fun c hc => h c (by simp [hc]))
    constructor
    · rw [List.cons_append, List.takeWhile_cons, ha]
      simp only [if_true]
      rw [iht.1, List.cons_append]
    · rw [List.cons_append, List.dropWhile_cons, ha]
      simp only [if_true]
      exact iht.2

theorem stripL_components {l : List Char} (h : stripL l = l) :
    l.dropWhile isWsC = l ∧ l.reverse.dropWhile isWsC = l.reverse := by
  have h1 : (l.dropWhile isWsC).length ≤ l.length := (List.dropWhile_sublist _).length_le
  have h2 : ((l.dropWhile isWsC).reverse.dropWhile isWsC).length
      ≤ (l.dropWhile isWsC).reverse.length := (List.dropWhile_sublist _).length_le
  have h3 : (stripL l).length = ((l.dropWhile isWsC).reverse.dropWhile isWsC).length := by
    unfold stripL
    rw [List.length_reverse]
  rw [h] at h3
  rw [List.length_reverse] at h2
  have hlen : (l.dropWhile isWsC).length = l.length := by omega
  have hfix : l.dropWhile isWsC = l := (List.dropWhile_sublist _).eq_of_length hlen
  refine ⟨hfix, ?_⟩
  have h4 : stripL l = (l.reverse.dropWhile isWsC).reverse := by
    unfold stripL
    rw [hfix]
  rw [h] at h4
  have h5 : (l.reverse.dropWhile isWsC).reverse.reverse = l.reverse := by rw [← h4]
  rw [List.reverse_reverse] at h5
  exact h5

theorem head_not_ws_of_strip {a : Char} {t : List Char}
    (h : stripL (a :: t) = a :: t) : isWsC a = false := by
  have h1 := (stripL_components h).1
  by_contra hws
  have hws' : isWsC a = true := by
    cases hh : isWsC a
    · exact absurd hh hws
    · rfl
  rw [List.dropWhile_cons, hws'] at h1
  simp only [if_true] at h1
  have := (List.dropWhile_sublist (l := t) (p := isWsC)).length_le
  have := congrArg List.length h1
  simp at this
  omega

theorem stripL_append_repeat {s : List Char} (hs : stripL s = s) (hsne : s ≠ []) :
    stripL (s ++ " repeat".toList) = s ++ " repeat".toList := by
  obtain ⟨a, t, rfl⟩ : ∃ a t, s = a :: t := by
    cases s with
    | nil => exact absurd rfl hsne
    | cons a t => exact ⟨a, t, rfl⟩
  have ha := head_not_ws_of_strip hs
  unfold stripL
  rw [List.cons_append, dropWhile_cons_of_neg ha, ← List.cons_append, List.reverse_append]
  have hrev : " repeat".toList.reverse = 't' :: "aeper ".toList := by decide
  rw [hrev, List.cons_append, dropWhile_cons_of_neg (by decide), ← List.cons_append,
    ← hrev, ← List.reverse_append, List.reverse_reverse]

theorem endsWithL_append (s : List Char) :
    endsWithL (s ++ " repeat".toList) " repeat".toList = true := by
  unfold endsWithL
  have hlen : (s ++ " repeat".toList).length - (" repeat".toList).length = s.length := by
    rw [List.length_append]
    omega
  rw [hlen, List.drop_left]
  simp

theorem take_append_repeat (s : List Char) :
    (s ++ " repeat".toList).take ((s ++ " repeat".toList).length - 7) = s := by
  have hlen : (s ++ " repeat".toList).length - 7 = s.length := by
    rw [List.length_append]
    have : (" repeat".toList).length = 7 := by decide
    omega
  rw [hlen, List.take_left]

/-! ### Claim C10: a failed parse never yields a repeat interval -/

/-- C10.  Whenever `parse_reminder` fails (an error message is returned and
no instant), the repeat-interval component of the result is `none`, even when
the input text ended with the `" repeat"` suffix. -/
theorem claim_C10 (raw : List Char) (base cfg : Nat) (e : PErr)
    (h : (parse_reminder raw base cfg).2.1 = some e) :
    (parse_reminder raw base cfg).2.2 = none := by
  unfold parse_reminder at *
  by_cases hraw : raw = []
  · rw [if_pos hraw]
  · rw [if_neg hraw] at h ⊢
    cases hcore : parseCore (effText raw) base cfg with
    | ok r =>
      rw [hcore] at h
      simp at h
    | error e' => rfl

/-- C10, witness: the failed parse of `"zzz repeat"` (trailing repeat
keyword, unparseable body) carries no repeat interval. -/
theorem claim_C10_witness :
    (parse_reminder "zzz repeat".toList 0 9).2.2 = none :=
  claim_C10 "zzz repeat".toList 0 9 (.unparseable "zzz".toList) (by decide)

/-! ### Claim C2: reschedule failure (code bug) -/

/-- A due recurring task whose descriptor no longer parses. -/
def tBroken : TaskRec :=
  { deleted := false, status := "new".toList,
    reminder := some "nonsense repeat".toList,
    reminder_timestamp := some 0,
    reminder_repeat := some "nonsense".toList }

/-- C2.  The claim states the spec's intended fail-safe: firing a due task
whose recurrence descriptor fails to parse clears both `trigger_instant`
and `recurrence_descriptor`.  The code is wrong on both counts: the due
query that would select the firing task raises `TypeError` while being
built — on every tick, for every reference instant — so the Reschedule
Engine never runs at all; and the transliterated reschedule code, applied
to the broken task, clears only `reminder_timestamp` and leaves
`reminder_repeat` set. -/
theorem claim_C2 :
    (∀ now : Nat, buildDueQuery now = .error .typeError)
      ∧ (∀ (tasks : List TaskRec) (now cfg : Nat),
          runServiceTick tasks now cfg = .error .typeError)
      ∧ (processDueTask tBroken 0 9).reminder_timestamp = none
      ∧ (processDueTask tBroken 0 9).reminder_repeat = some "nonsense".toList :=
  ⟨fun _ => rfl, fun _ _ _ => rfl, rfl, rfl⟩

/-! ### Claim C9: firing a one-shot task (code bug) -/

/-- A due one-shot task carrying reminder text. -/
def tOneShot : TaskRec :=
  { deleted := false, status := "new".toList,
    reminder := some "2 hours".toList,
    reminder_timestamp := some 3,
    reminder_repeat := none }

/-- C9.  The claim states the spec's intent: a fired one-shot task has both
`trigger_instant` and `reminder_text` cleared.  The code is wrong on both
counts: no one-shot task ever fires, because every tick's due query raises
`TypeError` while being built; and the transliterated one-shot branch,
applied to the due one-shot task, clears only `reminder_timestamp`,
leaving `reminder_text` in place. -/
theorem claim_C9 :
    (∀ (tasks : List TaskRec) (now cfg : Nat),
        runServiceTick tasks now cfg = .error .typeError)
      ∧ processDueTask tOneShot 5 9 = { tOneShot with reminder_timestamp := none }
      ∧ (processDueTask tOneShot 5 9).reminder = some "2 hours".toList :=
  ⟨fun _ _ _ => rfl, rfl, rfl⟩

/-! ### Claim C4: repair of a missing trigger (corrected: it lives in the
TUI, not in the scan step) -/

/-- A task with reminder text but no resolved trigger instant. -/
def tMissing : TaskRec :=
  { deleted := false, status := "new".toList,
    reminder := some "tomorrow".toList,
    reminder_timestamp := none,
    reminder_repeat := none }

/-- C4, counterexample to the claim as stated: for the task carrying
`reminder_text` but no `trigger_instant`, the scan step re-parses and
persists nothing — the tick aborts with a `TypeError` while its due query
is being built, producing no updated snapshot at all. -/
theorem claim_C4_counterexample :
    tMissing.reminder = some "tomorrow".toList
      ∧ tMissing.reminder_timestamp = none
      ∧ runServiceTick [tMissing] 999999999 9 = .error .typeError :=
  ⟨rfl, rfl, rfl⟩

/-- C4 as amended: the scan step performs no repair — its tick raises while
building the due query, re-parsing and persisting nothing.  The repair the
spec describes lives in the TUI instead: when the task table is rendered,
a safeguard re-parses the reminder text of any row with a missing
`trigger_instant` and persists the recovered instant, together with the
parsed repeat interval when one is present. -/
theorem claim_C4 (t : TaskRec) (tasks : List TaskRec) (now cfg dt : Nat)
    (txt : List Char) (rep : Option (List Char))
    (htxt : t.reminder = some txt) (hne : txt ≠ [])
    (hts : t.reminder_timestamp = none)
    (hparse : parse_reminder txt now cfg = (some dt, none, rep)) :
    runServiceTick tasks now cfg = .error .typeError
      ∧ tuiSafeguard t now cfg
          = { t with reminder_timestamp := some dt,
                     reminder_repeat := pyOr rep t.reminder_repeat } := by
  refine ⟨rfl, ?_⟩
  unfold tuiSafeguard
  rw [htxt, hts]
  dsimp only
  have hemp : txt.isEmpty = false := by
    cases txt with
    | nil => exact absurd rfl hne
    | cons a l => rfl
  rw [hemp]
  simp only [Bool.false_eq_true, if_false]
  rw [hparse]

/-- C4, witness: the TUI safeguard recovers the trigger of the concrete
unresolved `"tomorrow"` task at `now = 0`, while the service tick on the
same snapshot raises. -/
theorem claim_C4_witness :
    runServiceTick [tMissing] 0 9 = .error .typeError
      ∧ tuiSafeguard tMissing 0 9
          = { tMissing with reminder_timestamp := some 118800000000,
                            reminder_repeat := pyOr none tMissing.reminder_repeat } :=
  claim_C4 tMissing [tMissing] 0 9 118800000000 "tomorrow".toList none rfl
    (by decide) rfl (by decide)

/-! ### Claim C3: the due set (code bug: the query that would compute it
raises before selecting anything) -/

/-- C3.  The claim (and the spec) describe the intended DueSet — exactly
the non-terminal tasks with an elapsed trigger instant.  The code computes
no DueSet at all: the query expression evaluates
`(not tasks_table.deleted)` to the plain bool `False` and
`(tasks_table.reminder_timestamp is not None)` to `True`, and
`False & <Condition>` raises `TypeError` (the condition classes of
`database.py` define no `__rand__`), so every tick of the service loop dies
while building the query, for every snapshot and every reference instant,
and the claimed membership equivalence is never realized. -/
theorem claim_C3 (tasks : List TaskRec) (now cfg : Nat) :
    buildDueQuery now = .error .typeError
      ∧ runServiceTick tasks now cfg = .error .typeError :=
  ⟨rfl, rfl⟩

/-! ### Claim C7: empty and whitespace-only input (corrected) -/

/-- C7, counterexample to the claim as stated: whitespace-only input fails,
but with the generic could-not-parse error on the stripped (empty) text, not
with the empty-input error. -/
theorem claim_C7_counterexample :
    parse_reminder [' '] 0 9 = (none, some (.unparseable []), none)
      ∧ PErr.unparseable [] ≠ PErr.emptyText := by
  constructor
  · rfl
  · intro h
    cases h

/-- C7 as amended: every input whose trimmed text is empty fails to parse;
the literally empty input fails with the empty-input error, while
whitespace-only input falls through the whole grammar and fails with the
generic unparseable error over the stripped (empty) text. -/
theorem claim_C7 :
    (∀ base cfg : Nat, parse_reminder [] base cfg = (none, some .emptyText, none))
      ∧ (∀ (raw : List Char) (base cfg : Nat), raw ≠ [] → (∀ c ∈ raw, isWsC c = true) →
          parse_reminder raw base cfg = (none, some (.unparseable []), none)) := by
  constructor
  · intro base cfg
    rfl
  · intro raw base cfg hne hws
    unfold parse_reminder
    rw [if_neg hne]
    have hstrip : stripL raw = [] := by
      unfold stripL
      rw [dropWhile_eq_nil_of_all hws]
      rfl
    have heff : effText raw = [] := by
      unfold effText
      rw [hstrip]
      rfl
    have hrep : repeatOf raw = none := by
      unfold repeatOf
      rw [hstrip]
      rfl
    rw [heff]
    rfl

/-- C7, witness: both parts at concrete inputs. -/
theorem claim_C7_witness :
    parse_reminder [] 3 9 = (none, some .emptyText, none)
      ∧ parse_reminder [' ', ' '] 3 9 = (none, some (.unparseable []), none) :=
  ⟨claim_C7.1 3 9, claim_C7.2 [' ', ' '] 3 9 (by decide) (by decide)⟩

/-! ### Claim C8: the relative-time formatter (corrected) -/

/-- C8, counterexample to the claim as stated: at `instant = now` (which the
claim covers by `instant <= now`) the formatter does not report `"overdue"`
but `"in 0 seconds"`. -/
theorem claim_C8_counterexample :
    get_time_until 42 42 = "in 0 seconds".toList
      ∧ get_time_until 42 42 ≠ "overdue".toList := by
  have h1 : get_time_until 42 42 = "in 0 seconds".toList := rfl
  refine ⟨h1, ?_⟩
  rw [h1]
  exact fun h => absurd h (by decide)

/-- C8 as amended: `"overdue"` exactly when `instant < now` (strictly);
otherwise the elapsed whole seconds are rendered at the largest applicable
unit among seconds/minutes/hours/days/weeks by strict integer division,
pluralized, as `"in {n} {unit}"` — so `now + 90s` renders as
`"in 1 minute"`. -/
theorem claim_C8 (dt now : Nat) :
    (get_time_until dt now = "overdue".toList ↔ dt < now)
      ∧ (now ≤ dt → get_time_until dt now = formatRelativeSpec ((dt - now) / usPerSec))
      ∧ get_time_until (now + 90 * usPerSec) now = "in 1 minute".toList := by
  have hne : ∀ (x y : List Char), ('i' :: x) ++ y ≠ "overdue".toList := by
    intro x y h
    rw [List.cons_append] at h
    injection h with h1 h2
    cases h1
  refine ⟨?_, ?_, ?_⟩
  · constructor
    · intro h
      by_contra hlt
      unfold get_time_until at h
      rw [if_neg hlt] at h
      have hi : "in ".toList = 'i' :: "n ".toList := rfl
      split at h <;> [skip; split at h] <;> [skip; skip; split at h]
        <;> [skip; skip; skip; split at h] <;>
        (rw [hi, List.cons_append, List.append_assoc] at h ; exact hne _ _ (by
          rw [← List.cons_append] at h
          exact h))
    · intro h
      unfold get_time_until
      rw [if_pos h]
  · intro hle
    unfold get_time_until formatRelativeSpec
    rw [if_neg (by omega)]
  · have hlt : ¬ (now + 90 * usPerSec < now) := by unfold usPerSec; omega
    have hdiff : (now + 90 * usPerSec - now) / usPerSec = 90 := by unfold usPerSec; omega
    unfold get_time_until
    rw [if_neg hlt, hdiff]
    rw [if_neg (by omega), if_pos (by omega)]
    rfl

/-- C8, witness: the formatter agrees with the spec-side rendering on a
concrete non-overdue pair. -/
theorem claim_C8_witness :
    get_time_until 7000000 3000000 = formatRelativeSpec 4 :=
  (claim_C8 7000000 3000000).2.1 (by omega)

/-! ### Claim C6: the `" repeat"` suffix (confirmed) -/

theorem toLowerL_append_repeat {s : List Char} (h : toLowerL s = s) :
    toLowerL (s ++ " repeat".toList) = s ++ " repeat".toList := by
  unfold toLowerL at *
  rw [List.map_append, h]
  have : " repeat".toList.map lowerChar = " repeat".toList := by decide
  rw [this]

/-- C6.  If a trimmed, lowercased text parses successfully with no
recurrence descriptor, then the same text followed by the literal suffix
`" repeat"` parses to the same instant with the original text recorded as
the recurrence descriptor. -/
theorem claim_C6 (s : List Char) (base cfg t : Nat)
    (hstrip : stripL s = s) (hlower : toLowerL s = s)
    (hparse : parse_reminder s base cfg = (some t, none, none)) :
    parse_reminder (s ++ " repeat".toList) base cfg = (some t, none, some s) := by
  have hsne : s ≠ [] := by
    rintro rfl
    rw [show parse_reminder [] base cfg = (none, some .emptyText, none) from rfl] at hparse
    simp at hparse
  -- analyse the successful parse of `s`
  unfold parse_reminder at hparse
  rw [if_neg hsne] at hparse
  have hnosuf : endsWithL (toLowerL (stripL s)) " repeat".toList = false := by
    by_contra hsuf
    have hsuf' : endsWithL (toLowerL (stripL s)) " repeat".toList = true := by
      cases hh : endsWithL (toLowerL (stripL s)) " repeat".toList
      · exact absurd hh hsuf
      · rfl
    cases hcore : parseCore (effText s) base cfg with
    | ok r =>
      rw [hcore] at hparse
      have : repeatOf s = none := by
        have := congrArg (fun x => x.2.2) hparse
        simpa using this
      unfold repeatOf at this
      rw [if_pos hsuf'] at this
      exact absurd this (by simp)
    | error e =>
      rw [hcore] at hparse
      simp at hparse
  rw [hstrip, hlower] at hnosuf
  have heffs : effText s = s := by
    unfold effText
    rw [hstrip, hlower, hnosuf]
    simp
  have hcore : parseCore s base cfg = .ok t := by
    rw [heffs] at hparse
    cases hcore : parseCore s base cfg with
    | ok r =>
      rw [hcore] at hparse
      simp at hparse
      rw [hparse.1]
    | error e =>
      rw [hcore] at hparse
      simp at hparse
  -- now the appended text
  have hstrip2 := stripL_append_repeat hstrip hsne
  have hlower2 := toLowerL_append_repeat hlower
  have hsuf2 : endsWithL (s ++ " repeat".toList) " repeat".toList = true :=
    endsWithL_append s
  have heff2 : effText (s ++ " repeat".toList) = s := by
    unfold effText
    rw [hstrip2, hlower2, hsuf2]
    simp only [if_true]
    rw [take_append_repeat, hstrip]
  have hrep2 : repeatOf (s ++ " repeat".toList) = some s := by
    unfold repeatOf
    rw [hstrip2, hlower2, hsuf2]
    simp only [if_true]
    rw [take_append_repeat, hstrip]
  unfold parse_reminder
  rw [if_neg (by simp [hsne]), heff2, hcore, hrep2]

/-- C6, witness: `"2 hours"` and `"2 hours repeat"` at a concrete base. -/
theorem claim_C6_witness :
    parse_reminder ("2 hours".toList ++ " repeat".toList) 0 9
      = (some 7200000000, none, some "2 hours".toList) :=
  claim_C6 "2 hours".toList 0 9 7200000000 (by decide) (by decide) (by decide)

/-! ### Character-class disjointness -/

theorem wsC_toNat {c : Char} (h : isWsC c = true) :
    c.toNat = 32 ∨ c.toNat = 9 ∨ c.toNat = 10 ∨ c.toNat = 13 := by
  simp only [isWsC, Bool.or_eq_true, beq_iff_eq] at h
  rcases h with ((rfl | rfl) | rfl) | rfl <;> decide

theorem lowerC_not_ws {c : Char} (h : isLowerC c = true) : isWsC c = false := by
  cases hw : isWsC c
  · rfl
  · exfalso
    have h2 := wsC_toNat hw
    simp only [isLowerC, Bool.and_eq_true, decide_eq_true_eq] at h
    omega

theorem digitC_not_ws {c : Char} (h : isDigitC c = true) : isWsC c = false := by
  cases hw : isWsC c
  · rfl
  · exfalso
    have h2 := wsC_toNat hw
    simp only [isDigitC, Bool.and_eq_true, decide_eq_true_eq] at h
    omega

theorem wordC_not_ws {c : Char} (h : isWordC c = true) : isWsC c = false := by
  cases hw : isWsC c
  · rfl
  · exfalso
    have h2 := wsC_toNat hw
    simp only [isWordC, isAlphaC, isLowerC, isUpperC, isDigitC, Bool.or_eq_true,
      Bool.and_eq_true, decide_eq_true_eq, beq_iff_eq] at h
    rcases h with ((h | h) | h) | rfl
    · omega
    · omega
    · omega
    · revert h2; decide

theorem lowerC_not_digit {c : Char} (h : isLowerC c = true) : isDigitC c = false := by
  cases hd : isDigitC c
  · rfl
  · exfalso
    simp only [isLowerC, isDigitC, Bool.and_eq_true, decide_eq_true_eq] at h hd
    omega

theorem digitC_not_lower {c : Char} (h : isDigitC c = true) : isLowerC c = false := by
  cases hd : isLowerC c
  · rfl
  · exfalso
    simp only [isLowerC, isDigitC, Bool.and_eq_true, decide_eq_true_eq] at h hd
    omega

theorem lowerC_alpha {c : Char} (h : isLowerC c = true) : isAlphaC c = true := by
  simp [isAlphaC, h]

theorem digitC_ne_dash {c : Char} (h : isDigitC c = true) : c ≠ '-' := by
  rintro rfl
  exact absurd h (by decide)

theorem lowerC_ne_dash {c : Char} (h : isLowerC c = true) : c ≠ '-' := by
  rintro rfl
  exact absurd h (by decide)

theorem digitC_ne_slash {c : Char} (h : isDigitC c = true) : c ≠ '/' := by
  rintro rfl
  exact absurd h (by decide)

theorem lowerC_ne_slash {c : Char} (h : isLowerC c = true) : c ≠ '/' := by
  rintro rfl
  exact absurd h (by decide)

theorem lowerC_lowerChar {c : Char} (h : isLowerC c = true) : lowerChar c = c := by
  unfold lowerChar
  rw [if_neg]
  intro hu
  simp only [isLowerC, isUpperC, Bool.and_eq_true, decide_eq_true_eq] at h hu
  omega

/-! ### Micro list lemmas -/

theorem orElse_none' {α : Type} (f : Unit → Option α) : Option.orElse none f = f () := rfl

theorem orElse_some' {α : Type} (a : α) (f : Unit → Option α) :
    Option.orElse (some a) f = some a := rfl

theorem takeWhile_ne_nil_head {p : Char → Bool} {l : List Char}
    (h : l.takeWhile p ≠ []) : ∃ a t, l = a :: t ∧ p a = true := by
  cases l with
  | nil => exact absurd rfl h
  | cons a t =>
    refine ⟨a, t, rfl, ?_⟩
    cases hp : p a
    · rw [takeWhile_cons_of_neg hp] at h
      exact absurd rfl h
    · rfl

theorem mem_of_dropWhile {p : Char → Bool} {l : List Char} {c : Char}
    (h : c ∈ l.dropWhile p) : c ∈ l := (List.dropWhile_sublist _).mem h

theorem mem_of_takeWhile {p : Char → Bool} {l : List Char} {c : Char}
    (h : c ∈ l.takeWhile p) : c ∈ l := (List.takeWhile_sublist _).mem h

theorem dropWhile_eq_self_of_all_neg {p : Char → Bool} {l : List Char}
    (h : ∀ c ∈ l, p c = false) : l.dropWhile p = l := by
  cases l with
  | nil => rfl
  | cons a t => exact dropWhile_cons_of_neg (h a (by simp))

theorem stripL_eq_self_of_all_not_ws {l : List Char}
    (h : ∀ c ∈ l, isWsC c = false) : stripL l = l := by
  unfold stripL
  rw [dropWhile_eq_self_of_all_neg h,
    dropWhile_eq_self_of_all_neg (fun c hc => h c (List.mem_reverse.mp hc)),
    List.reverse_reverse]

theorem toLowerL_eq_self_of_lower {l : List Char}
    (h : ∀ c ∈ l, isLowerC c = true) : toLowerL l = l := by
  unfold toLowerL
  induction l with
  | nil => rfl
  | cons a t ih =>
    rw [List.map_cons, lowerC_lowerChar (h a (by simp)),
      ih (fun c hc => h c (by simp [hc]))]

theorem isPrefixOf_cons_ex {a : Char} {as l : List Char}
    (h : (a :: as).isPrefixOf l = true) : ∃ t, l = a :: t ∧ as.isPrefixOf t = true := by
  cases l with
  | nil => simp [List.isPrefixOf] at h
  | cons b t =>
    simp only [List.isPrefixOf, Bool.and_eq_true, beq_iff_eq] at h
    exact ⟨t, by rw [h.1], h.2⟩

theorem isPrefixOf_append_self (l r : List Char) : l.isPrefixOf (l ++ r) = true := by
  induction l with
  | nil => simp [List.isPrefixOf]
  | cons a t ih => simp [List.isPrefixOf, ih]

/-! ### Matcher characterizations -/

theorem matchNext_some_head {l u : List Char} (h : matchNext l = some u) :
    ∃ r, l = 'n' :: r := by
  unfold matchNext at h
  split at h
  · next hpre =>
    have hpre' : ('n' :: "ext".toList).isPrefixOf l = true := hpre
    obtain ⟨t, ht, -⟩ := isPrefixOf_cons_ex hpre'
    exact ⟨t, ht⟩
  · exact absurd h (by simp)

theorem matchNext_pos {s : List Char} (hs : s ≠ []) (hw : ∀ c ∈ s, isWordC c = true) :
    matchNext ("next".toList ++ ' ' :: s) = some s := by
  obtain ⟨b, s', rfl⟩ : ∃ b s', s = b :: s' := by
    cases s with
    | nil => exact absurd rfl hs
    | cons b s' => exact ⟨b, s', rfl⟩
  have hb : isWsC b = false := wordC_not_ws (hw b (by simp))
  have hdrop : ("next".toList ++ ' ' :: b :: s').drop 4 = ' ' :: b :: s' := rfl
  unfold matchNext
  rw [if_pos (isPrefixOf_append_self "next".toList (' ' :: b :: s')), hdrop]
  rw [List.takeWhile_cons, List.dropWhile_cons]
  simp only [show isWsC ' ' = true from rfl, if_true]
  rw [takeWhile_cons_of_neg hb, dropWhile_cons_of_neg hb]
  rw [if_pos]
  refine ⟨by simp, by simp, ?_⟩
  simp only [List.all_eq_true]
  intro c hc
  exact hw c hc

theorem matchISOdt_mem {l : List Char} {x : Nat × Nat × Nat × Nat × Nat × Nat}
    (h : matchISOdt l = some x) : '-' ∈ l := by
  unfold matchISOdt at h
  split at h
  · split at h
    · next hcond =>
      obtain ⟨-, rfl, -⟩ := hcond
      simp
    · exact absurd h (by simp)
  · exact absurd h (by simp)

theorem matchISOd_mem {l : List Char} {x : Nat × Nat × Nat}
    (h : matchISOd l = some x) : '-' ∈ l := by
  unfold matchISOd at h
  split at h
  · split at h
    · next hcond =>
      obtain ⟨-, rfl, -⟩ := hcond
      simp
    · exact absurd h (by simp)
  · exact absurd h (by simp)

theorem matchFDT_mem {l : List Char} {x : List Char × List Char × List Char × List Char}
    (h : matchFDT l = some x) : '/' ∈ l := by
  unfold matchFDT at h
  split at h
  · next r4 heq =>
    have hm : '/' ∈ ((l.dropWhile isDigitC).dropWhile isWsC).dropWhile isLowerC := by
      rw [heq]
      simp
    exact mem_of_dropWhile (mem_of_dropWhile (mem_of_dropWhile hm))
  · exact absurd h (by simp)

theorem matchFD_mem {l : List Char} {x : List Char × List Char × List Char}
    (h : matchFD l = some x) : '/' ∈ l := by
  unfold matchFD at h
  split at h
  · next r4 heq =>
    have hm : '/' ∈ ((l.dropWhile isDigitC).dropWhile isWsC).dropWhile isLowerC := by
      rw [heq]
      simp
    exact mem_of_dropWhile (mem_of_dropWhile (mem_of_dropWhile hm))
  · exact absurd h (by simp)

theorem matchMonthDay_some_facts {l : List Char} {x : List Char × List Char}
    (h : matchMonthDay l = some x) :
    (∃ a t, l = a :: t ∧ isDigitC a = true) ∧ (∃ c ∈ l, isWsC c = true) := by
  unfold matchMonthDay at h
  split at h
  · next hcond =>
    obtain ⟨h1, -, h3, -⟩ := hcond
    constructor
    · exact takeWhile_ne_nil_head (by
        intro hnil
        rw [hnil] at h1
        simp at h1)
    · obtain ⟨a, t, heq, ha⟩ := takeWhile_ne_nil_head h3
      refine ⟨a, ?_, ha⟩
      have : a ∈ l.dropWhile isDigitC := by
        rw [heq]
        simp
      exact mem_of_dropWhile this
  · exact absurd h (by simp)

theorem matchWdTime_some_head {l : List Char} {x : List Char × List Char}
    (h : matchWdTime l = some x) : ∃ a t, l = a :: t ∧ isLowerC a = true := by
  unfold matchWdTime at h
  split at h
  · next hcond => exact takeWhile_ne_nil_head hcond.1
  · exact absurd h (by simp)

theorem matchWdTime_none_all_lower {l : List Char}
    (h : ∀ c ∈ l, isLowerC c = true) : matchWdTime l = none := by
  unfold matchWdTime
  rw [if_neg]
  intro hcond
  have hdrop : l.dropWhile isLowerC = [] := dropWhile_eq_nil_of_all h
  rw [hdrop] at hcond
  exact hcond.2.1 rfl

theorem matchNumUnit_some_ws {l : List Char} {x : List Char × List Char}
    (h : matchNumUnit l = some x) : ∃ c ∈ l, isWsC c = true := by
  unfold matchNumUnit at h
  split at h
  · next hcond =>
    obtain ⟨a, t, heq, ha⟩ := takeWhile_ne_nil_head hcond.2.1
    refine ⟨a, ?_, ha⟩
    have : a ∈ l.dropWhile isDigitC := by
      rw [heq]
      simp
    exact mem_of_dropWhile this
  · exact absurd h (by simp)

theorem matchMonthDay_pos {nl s : List Char} (hnl : nl ≠ [])
    (hnld : ∀ c ∈ nl, isDigitC c = true) (hs : s ≠ [])
    (hsl : ∀ c ∈ s, isLowerC c = true) :
    matchMonthDay (nl ++ ' ' :: s) = if nl.length ≤ 2 then some (nl, s) else none := by
  obtain ⟨b, s', rfl⟩ : ∃ b s', s = b :: s' := by
    cases s with
    | nil => exact absurd rfl hs
    | cons b s' => exact ⟨b, s', rfl⟩
  have hb : isWsC b = false := lowerC_not_ws (hsl b (by simp))
  have htw := takeWhile_append_all (p := isDigitC) (' ' :: b :: s') hnld
  have htake : (nl ++ ' ' :: b :: s').takeWhile isDigitC = nl := by
    rw [htw.1, takeWhile_cons_of_neg (show isDigitC ' ' = false from rfl), List.append_nil]
  have hdrop : (nl ++ ' ' :: b :: s').dropWhile isDigitC = ' ' :: b :: s' := by
    rw [htw.2, dropWhile_cons_of_neg (show isDigitC ' ' = false from rfl)]
  have htws : (' ' :: b :: s').takeWhile isWsC = ' ' :: (b :: s').takeWhile isWsC := by
    rw [List.takeWhile_cons]
    simp [show isWsC ' ' = true from rfl]
  have hdws : (' ' :: b :: s').dropWhile isWsC = b :: s' := by
    rw [List.dropWhile_cons]
    simp only [show isWsC ' ' = true from rfl, if_true]
    exact dropWhile_cons_of_neg hb
  unfold matchMonthDay
  rw [htake, hdrop, htws, hdws]
  by_cases hlen : nl.length ≤ 2
  · rw [if_pos hlen, if_pos]
    refine ⟨?_, hlen, by simp, by simp, ?_⟩
    · cases nl with
      | nil => exact absurd rfl hnl
      | cons a t => simp
    · simp only [List.all_eq_true]
      exact hsl
  · rw [if_neg hlen, if_neg]
    intro hcond
    exact hlen hcond.2.1

theorem matchWdTime_pos {w tt : List Char} (hw : w ≠ [])
    (hwl : ∀ c ∈ w, isLowerC c = true) (htt : matchTimeTok tt = true) :
    matchWdTime (w ++ ' ' :: tt) = some (w, tt) := by
  obtain ⟨d, tt', htteq, hd⟩ : ∃ d tt', tt = d :: tt' ∧ isDigitC d = true := by
    apply takeWhile_ne_nil_head
    simp only [matchTimeTok, Bool.and_eq_true, decide_eq_true_eq] at htt
    intro hnil
    rw [hnil] at htt
    simp at htt
  have hdw : isWsC d = false := digitC_not_ws hd
  have htw := takeWhile_append_all (p := isLowerC) (' ' :: tt) hwl
  have htake : (w ++ ' ' :: tt).takeWhile isLowerC = w := by
    rw [htw.1, takeWhile_cons_of_neg (show isLowerC ' ' = false from rfl), List.append_nil]
  have hdrop : (w ++ ' ' :: tt).dropWhile isLowerC = ' ' :: tt := by
    rw [htw.2, dropWhile_cons_of_neg (show isLowerC ' ' = false from rfl)]
  have hdws : (' ' :: tt).dropWhile isWsC = tt := by
    rw [List.dropWhile_cons]
    simp only [show isWsC ' ' = true from rfl, if_true]
    rw [htteq]
    exact dropWhile_cons_of_neg hdw
  unfold matchWdTime
  rw [htake, hdrop, hdws]
  rw [if_pos]
  refine ⟨hw, ?_, htt⟩
  rw [List.takeWhile_cons]
  simp [show isWsC ' ' = true from rfl]

theorem matchNumUnit_pos {nl s : List Char} (hnl : nl ≠ [])
    (hnld : ∀ c ∈ nl, isDigitC c = true) (hs : s ≠ [])
    (hsl : ∀ c ∈ s, isLowerC c = true) :
    matchNumUnit (nl ++ ' ' :: s) = some (nl, s) := by
  obtain ⟨b, s', rfl⟩ : ∃ b s', s = b :: s' := by
    cases s with
    | nil => exact absurd rfl hs
    | cons b s' => exact ⟨b, s', rfl⟩
  have hb : isWsC b = false := lowerC_not_ws (hsl b (by simp))
  have htw := takeWhile_append_all (p := isDigitC) (' ' :: b :: s') hnld
  have htake : (nl ++ ' ' :: b :: s').takeWhile isDigitC = nl := by
    rw [htw.1, takeWhile_cons_of_neg (show isDigitC ' ' = false from rfl), List.append_nil]
  have hdrop : (nl ++ ' ' :: b :: s').dropWhile isDigitC = ' ' :: b :: s' := by
    rw [htw.2, dropWhile_cons_of_neg (show isDigitC ' ' = false from rfl)]
  have hdws : (' ' :: b :: s').dropWhile isWsC = b :: s' := by
    rw [List.dropWhile_cons]
    simp only [show isWsC ' ' = true from rfl, if_true]
    exact dropWhile_cons_of_neg hb
  unfold matchNumUnit
  rw [htake, hdrop, hdws]
  rw [if_pos]
  refine ⟨hnl, ?_, by simp, ?_⟩
  · rw [List.takeWhile_cons]
    simp [show isWsC ' ' = true from rfl]
  · simp only [List.all_eq_true]
    intro c hc
    exact lowerC_alpha (hsl c hc)

/-! ### Table facts -/

theorem lookupL_eq_some_mem {α : Type} {tbl : List (List Char × α)} {k : List Char}
    {v : α} (h : lookupL tbl k = some v) : (k, v) ∈ tbl := by
  induction tbl with
  | nil => exact absurd h (by simp [lookupL])
  | cons p rest ih =>
    unfold lookupL at h
    split at h
    · next heq =>
      injection h with h
      have : (k, v) = p := by
        rw [heq, ← h]
      rw [this]
      exact List.mem_cons_self p rest
    · right
      exact ih h

theorem weekday_table_facts : ∀ p ∈ WEEKDAY_NAMES,
    (∀ c ∈ p.1, isLowerC c = true) ∧ p.1 ≠ [] ∧ p.1.headD 'x' ≠ 'n' ∧ p.2 ≤ 6
      ∧ p.1 ≠ "today".toList ∧ p.1 ≠ "tomorrow".toList := by decide

theorem abbrev_table_canonical : ∀ p ∈ UNIT_ABBREV, p.2 ∈ canonicalUnits := by decide

theorem canonical_month_none : ∀ k ∈ canonicalUnits, lookupL MONTH_NAMES k = none := by
  decide

theorem abbrev_month_none : ∀ p ∈ UNIT_ABBREV, lookupL MONTH_NAMES p.1 = none := by
  decide

/-! ### `normalize_unit` facts -/

theorem normalize_unit_lower {s : List Char} (_hs : s ≠ [])
    (hsl : ∀ c ∈ s, isLowerC c = true) :
    normalize_unit s
      = (if s ∈ canonicalUnits then some s else lookupL UNIT_ABBREV s) := by
  have hfix : stripL (toLowerL s) = s := by
    rw [toLowerL_eq_self_of_lower hsl]
    exact stripL_eq_self_of_all_not_ws (fun c hc => lowerC_not_ws (hsl c hc))
  unfold normalize_unit
  rw [hfix]

theorem normalize_unit_canonical {s u : List Char} (hs : s ≠ [])
    (hsl : ∀ c ∈ s, isLowerC c = true) (h : normalize_unit s = some u) :
    u ∈ canonicalUnits := by
  rw [normalize_unit_lower hs hsl] at h
  split at h
  · next hmem =>
    injection h with h
    rw [← h]
    exact hmem
  · exact abbrev_table_canonical _ (lookupL_eq_some_mem h)

theorem month_lookup_none_of_unit {s u : List Char} (hs : s ≠ [])
    (hsl : ∀ c ∈ s, isLowerC c = true) (h : normalize_unit s = some u) :
    lookupL MONTH_NAMES s = none := by
  rw [normalize_unit_lower hs hsl] at h
  split at h
  · next hmem => exact canonical_month_none s hmem
  · exact abbrev_month_none _ (lookupL_eq_some_mem h)

/-! ### Branch dispatch, per grammar family -/

theorem parseCore_relform_gt {nl s : List Char} {base cfg r : Nat}
    (hnl : nl ≠ []) (hnld : ∀ c ∈ nl, isDigitC c = true) (hn1 : 1 ≤ natOfDigits nl)
    (hs : s ≠ []) (hsl : ∀ c ∈ s, isLowerC c = true)
    (hnorm : (normalize_unit s).isSome)
    (hcore : parseCore (nl ++ ' ' :: s) base cfg = .ok r) : base < r := by
  obtain ⟨a0, nl', rfl⟩ : ∃ a0 nl', nl = a0 :: nl' := by
    cases nl with
    | nil => exact absurd rfl hnl
    | cons a0 nl' => exact ⟨a0, nl', rfl⟩
  have ha0 : isDigitC a0 = true := hnld a0 (by simp)
  obtain ⟨u, hu⟩ := Option.isSome_iff_exists.mp hnorm
  have hwsmem : ' ' ∈ (a0 :: nl') ++ ' ' :: s := by simp
  have hdash : '-' ∉ (a0 :: nl') ++ ' ' :: s := by
    intro hm'
    rcases List.mem_append.mp hm' with h | h
    · exact digitC_ne_dash (hnld _ h) rfl
    · rcases List.mem_cons.mp h with h | h
      · exact absurd h (by decide)
      · exact lowerC_ne_dash (hsl _ h) rfl
  have hslash : '/' ∉ (a0 :: nl') ++ ' ' :: s := by
    intro hm'
    rcases List.mem_append.mp hm' with h | h
    · exact digitC_ne_slash (hnld _ h) rfl
    · rcases List.mem_cons.mp h with h | h
      · exact absurd h (by decide)
      · exact lowerC_ne_slash (hsl _ h) rfl
  have hb1 : branchToday ((a0 :: nl') ++ ' ' :: s) base = none := by
    unfold branchToday
    rw [if_neg]
    intro heq
    rw [heq] at hwsmem
    exact absurd hwsmem (by decide)
  have hb2 : branchTomorrow ((a0 :: nl') ++ ' ' :: s) base = none := by
    unfold branchTomorrow
    rw [if_neg]
    intro heq
    rw [heq] at hwsmem
    exact absurd hwsmem (by decide)
  have hb3 : branchNext ((a0 :: nl') ++ ' ' :: s) base = none := by
    cases hm : matchNext ((a0 :: nl') ++ ' ' :: s) with
    | none => unfold branchNext; rw [hm]
    | some w =>
      exfalso
      obtain ⟨rest, hrest⟩ := matchNext_some_head hm
      rw [List.cons_append] at hrest
      injection hrest with h1 h2
      rw [h1] at ha0
      exact absurd ha0 (by decide)
  have hb4 : branchISOdt ((a0 :: nl') ++ ' ' :: s) base = none := by
    cases hm : matchISOdt ((a0 :: nl') ++ ' ' :: s) with
    | none => unfold branchISOdt; rw [hm]
    | some x => exact absurd (matchISOdt_mem hm) hdash
  have hb5 : branchISOd ((a0 :: nl') ++ ' ' :: s) base cfg = none := by
    cases hm : matchISOd ((a0 :: nl') ++ ' ' :: s) with
    | none => unfold branchISOd; rw [hm]
    | some x => exact absurd (matchISOd_mem hm) hdash
  have hb6 : branchFDT ((a0 :: nl') ++ ' ' :: s) base = none := by
    cases hm : matchFDT ((a0 :: nl') ++ ' ' :: s) with
    | none => unfold branchFDT; rw [hm]
    | some x => exact absurd (matchFDT_mem hm) hslash
  have hb7 : branchFD ((a0 :: nl') ++ ' ' :: s) base cfg = none := by
    cases hm : matchFD ((a0 :: nl') ++ ' ' :: s) with
    | none => unfold branchFD; rw [hm]
    | some x => exact absurd (matchFD_mem hm) hslash
  have hb8 : branchMonthDay ((a0 :: nl') ++ ' ' :: s) base cfg = none := by
    have hmd := matchMonthDay_pos hnl hnld hs hsl
    by_cases hlen : (a0 :: nl').length ≤ 2
    · rw [if_pos hlen] at hmd
      unfold branchMonthDay
      rw [hmd]
      dsimp only
      rw [month_lookup_none_of_unit hs hsl hu]
    · rw [if_neg hlen] at hmd
      unfold branchMonthDay
      rw [hmd]
  have hb9 : branchWdTime ((a0 :: nl') ++ ' ' :: s) base cfg = none := by
    cases hm : matchWdTime ((a0 :: nl') ++ ' ' :: s) with
    | none => unfold branchWdTime; rw [hm]
    | some x =>
      exfalso
      obtain ⟨a, t, heq, ha⟩ := matchWdTime_some_head hm
      rw [List.cons_append] at heq
      injection heq with h1 h2
      rw [← h1] at ha
      rw [digitC_not_lower ha0] at ha
      cases ha
  have hb10 : branchWdBare ((a0 :: nl') ++ ' ' :: s) base cfg = none := by
    cases hlk : lookupL WEEKDAY_NAMES ((a0 :: nl') ++ ' ' :: s) with
    | none => unfold branchWdBare; rw [hlk]
    | some wd =>
      exfalso
      have hfacts := weekday_table_facts _ (lookupL_eq_some_mem hlk)
      have := hfacts.1 ' ' hwsmem
      exact absurd this (by decide)
  simp only [parseCore, hb1, hb2, hb3, hb4, hb5, hb6, hb7, hb8, hb9, hb10,
    orElse_none'] at hcore
  unfold branchNumUnit at hcore
  rw [matchNumUnit_pos hnl hnld hs hsl] at hcore
  dsimp only at hcore
  rw [hu] at hcore
  dsimp only at hcore
  simp only [orElse_some', Option.getD_some] at hcore
  have hucan := normalize_unit_canonical hs hsl hu
  unfold canonicalUnits at hucan
  fin_cases hucan
  · rw [if_pos rfl] at hcore
    injection hcore with hcore
    simp only [usPerSec] at hcore
    omega
  · rw [if_neg (by decide), if_pos rfl] at hcore
    injection hcore with hcore
    simp only [usPerMin] at hcore
    omega
  · rw [if_neg (by decide), if_neg (by decide), if_pos rfl] at hcore
    injection hcore with hcore
    simp only [usPerHour] at hcore
    omega
  · rw [if_neg (by decide), if_neg (by decide), if_neg (by decide), if_pos rfl] at hcore
    injection hcore with hcore
    simp only [usPerDay] at hcore
    omega
  · rw [if_neg (by decide), if_neg (by decide), if_neg (by decide), if_neg (by decide),
      if_pos rfl] at hcore
    injection hcore with hcore
    simp only [usPerDay] at hcore
    omega
  · rw [if_neg (by decide), if_neg (by decide), if_neg (by decide), if_neg (by decide),
      if_neg (by decide), if_pos rfl] at hcore
    injection hcore with hcore
    simp only [usPerDay] at hcore
    omega
  · rw [if_neg (by decide), if_neg (by decide), if_neg (by decide), if_neg (by decide),
      if_neg (by decide), if_neg (by decide), if_pos rfl] at hcore
    injection hcore with hcore
    simp only [usPerDay] at hcore
    omega
  · rw [if_neg (by decide), if_neg (by decide), if_neg (by decide), if_neg (by decide),
      if_neg (by decide), if_neg (by decide), if_neg (by decide), if_pos rfl] at hcore
    injection hcore with hcore
    simp only [usPerDay] at hcore
    omega
  · rw [if_neg (by decide), if_neg (by decide), if_neg (by decide), if_neg (by decide),
      if_neg (by decide), if_neg (by decide), if_neg (by decide), if_neg (by decide),
      if_pos rfl] at hcore
    injection hcore with hcore
    simp only [usPerDay] at hcore
    omega

theorem pred_of_mem_takeWhile {p : Char → Bool} {l : List Char} {c : Char}
    (h : c ∈ l.takeWhile p) : p c = true := by
  induction l with
  | nil => simp at h
  | cons a t ih =>
    rw [List.takeWhile_cons] at h
    by_cases hp : p a = true
    · rw [hp] at h
      simp only [if_true] at h
      rcases List.mem_cons.mp h with rfl | h
      · exact hp
      · exact ih h
    · rw [Bool.not_eq_true] at hp
      rw [hp] at h
      simp at h

theorem timeTok_chars {tt : List Char} (h : matchTimeTok tt = true) :
    ∀ c ∈ tt, isDigitC c = true ∨ c ∈ ['a', 'p', 'm', 'A', 'P', 'M'] := by
  intro c hc
  rw [← List.takeWhile_append_dropWhile (p := isDigitC) (l := tt)] at hc
  rcases List.mem_append.mp hc with h1 | h1
  · exact Or.inl (pred_of_mem_takeWhile h1)
  · right
    have horp : tt.dropWhile isDigitC = [] ∨ tt.dropWhile isDigitC = "am".toList
        ∨ tt.dropWhile isDigitC = "pm".toList ∨ tt.dropWhile isDigitC = "AM".toList
        ∨ tt.dropWhile isDigitC = "PM".toList := by
      have h2 := h
      simp only [matchTimeTok, Bool.and_eq_true, Bool.or_eq_true, beq_iff_eq,
        List.isEmpty_iff, decide_eq_true_eq] at h2
      tauto
    rcases horp with he | he | he | he | he <;> rw [he] at h1
    · simp at h1
    · have ham : c ∈ (['a', 'm'] : List Char) := h1
      rcases List.mem_cons.mp ham with rfl | h12
      · decide
      · rcases List.mem_cons.mp h12 with rfl | h13
        · decide
        · simp at h13
    · have hpm : c ∈ (['p', 'm'] : List Char) := h1
      rcases List.mem_cons.mp hpm with rfl | h12
      · decide
      · rcases List.mem_cons.mp h12 with rfl | h13
        · decide
        · simp at h13
    · have hAM : c ∈ (['A', 'M'] : List Char) := h1
      rcases List.mem_cons.mp hAM with rfl | h12
      · decide
      · rcases List.mem_cons.mp h12 with rfl | h13
        · decide
        · simp at h13
    · have hPM : c ∈ (['P', 'M'] : List Char) := h1
      rcases List.mem_cons.mp hPM with rfl | h12
      · decide
      · rcases List.mem_cons.mp h12 with rfl | h13
        · decide
        · simp at h13

theorem normalize_unit_canonical' {s u : List Char} (h : normalize_unit s = some u) :
    u ∈ canonicalUnits := by
  unfold normalize_unit at h
  split at h
  · next hmem =>
    injection h with h
    rw [← h]
    exact hmem
  · exact abbrev_table_canonical _ (lookupL_eq_some_mem h)

theorem parseCore_wdbare_gt {l : List Char} {base cfg r wd : Nat}
    (hlk : lookupL WEEKDAY_NAMES l = some wd)
    (hcore : parseCore l base cfg = .ok r) : base < r := by
  have hfacts := weekday_table_facts _ (lookupL_eq_some_mem hlk)
  obtain ⟨hlow, hne, hheadn, hwd6, htoday, htom⟩ := hfacts
  obtain ⟨a, t, rfl⟩ : ∃ a t, l = a :: t := by
    cases l with
    | nil => exact absurd rfl hne
    | cons a t => exact ⟨a, t, rfl⟩
  have ha : isLowerC a = true := hlow a (by simp)
  have hdash : '-' ∉ a :: t := by
    intro hm
    exact lowerC_ne_dash (hlow _ hm) rfl
  have hslash : '/' ∉ a :: t := by
    intro hm
    exact lowerC_ne_slash (hlow _ hm) rfl
  have hb1 : branchToday (a :: t) base = none := by
    unfold branchToday
    rw [if_neg htoday]
  have hb2 : branchTomorrow (a :: t) base = none := by
    unfold branchTomorrow
    rw [if_neg htom]
  have hb3 : branchNext (a :: t) base = none := by
    cases hm : matchNext (a :: t) with
    | none => unfold branchNext; rw [hm]
    | some w =>
      exfalso
      obtain ⟨rest, hrest⟩ := matchNext_some_head hm
      injection hrest with h1 h2
      rw [h1] at hheadn
      exact hheadn rfl
  have hb4 : branchISOdt (a :: t) base = none := by
    cases hm : matchISOdt (a :: t) with
    | none => unfold branchISOdt; rw [hm]
    | some x => exact absurd (matchISOdt_mem hm) hdash
  have hb5 : branchISOd (a :: t) base cfg = none := by
    cases hm : matchISOd (a :: t) with
    | none => unfold branchISOd; rw [hm]
    | some x => exact absurd (matchISOd_mem hm) hdash
  have hb6 : branchFDT (a :: t) base = none := by
    cases hm : matchFDT (a :: t) with
    | none => unfold branchFDT; rw [hm]
    | some x => exact absurd (matchFDT_mem hm) hslash
  have hb7 : branchFD (a :: t) base cfg = none := by
    cases hm : matchFD (a :: t) with
    | none => unfold branchFD; rw [hm]
    | some x => exact absurd (matchFD_mem hm) hslash
  have hb8 : branchMonthDay (a :: t) base cfg = none := by
    cases hm : matchMonthDay (a :: t) with
    | none => unfold branchMonthDay; rw [hm]
    | some x =>
      exfalso
      obtain ⟨⟨a', t', heq, ha'⟩, -⟩ := matchMonthDay_some_facts hm
      injection heq with h1 h2
      rw [← h1] at ha'
      rw [lowerC_not_digit ha] at ha'
      cases ha'
  have hb9 : branchWdTime (a :: t) base cfg = none := by
    unfold branchWdTime
    rw [matchWdTime_none_all_lower hlow]
  simp only [parseCore, hb1, hb2, hb3, hb4, hb5, hb6, hb7, hb8, hb9,
    orElse_none'] at hcore
  unfold branchWdBare at hcore
  rw [hlk] at hcore
  dsimp only at hcore
  simp only [orElse_some', Option.getD_some] at hcore
  injection hcore with hcore
  rw [← hcore]
  exact next_weekday_gt base wd none cfg hwd6

theorem parseCore_wdtime_gt {w tt : List Char} {base cfg r wd : Nat}
    (hlk : lookupL WEEKDAY_NAMES w = some wd) (htt : matchTimeTok tt = true)
    (hcore : parseCore (w ++ ' ' :: tt) base cfg = .ok r) : base < r := by
  have hfacts := weekday_table_facts _ (lookupL_eq_some_mem hlk)
  obtain ⟨hlow, hne, hheadn, hwd6, -, -⟩ := hfacts
  obtain ⟨a, w', rfl⟩ : ∃ a w', w = a :: w' := by
    cases w with
    | nil => exact absurd rfl hne
    | cons a w' => exact ⟨a, w', rfl⟩
  have ha : isLowerC a = true := hlow a (by simp)
  have httc := timeTok_chars htt
  have hwsmem : ' ' ∈ (a :: w') ++ ' ' :: tt := by simp
  have hdash : '-' ∉ (a :: w') ++ ' ' :: tt := by
    intro hm
    rcases List.mem_append.mp hm with h | h
    · exact lowerC_ne_dash (hlow _ h) rfl
    · rcases List.mem_cons.mp h with h | h
      · exact absurd h (by decide)
      · rcases httc _ h with hd | hl
        · exact absurd hd (by decide)
        · exact absurd hl (by decide)
  have hslash : '/' ∉ (a :: w') ++ ' ' :: tt := by
    intro hm
    rcases List.mem_append.mp hm with h | h
    · exact lowerC_ne_slash (hlow _ h) rfl
    · rcases List.mem_cons.mp h with h | h
      · exact absurd h (by decide)
      · rcases httc _ h with hd | hl
        · exact absurd hd (by decide)
        · exact absurd hl (by decide)
  have hb1 : branchToday ((a :: w') ++ ' ' :: tt) base = none := by
    unfold branchToday
    rw [if_neg]
    intro heq
    rw [heq] at hwsmem
    exact absurd hwsmem (by decide)
  have hb2 : branchTomorrow ((a :: w') ++ ' ' :: tt) base = none := by
    unfold branchTomorrow
    rw [if_neg]
    intro heq
    rw [heq] at hwsmem
    exact absurd hwsmem (by decide)
  have hb3 : branchNext ((a :: w') ++ ' ' :: tt) base = none := by
    cases hm : matchNext ((a :: w') ++ ' ' :: tt) with
    | none => unfold branchNext; rw [hm]
    | some x =>
      exfalso
      obtain ⟨rest, hrest⟩ := matchNext_some_head hm
      rw [List.cons_append] at hrest
      injection hrest with h1 h2
      rw [h1] at hheadn
      exact hheadn rfl
  have hb4 : branchISOdt ((a :: w') ++ ' ' :: tt) base = none := by
    cases hm : matchISOdt ((a :: w') ++ ' ' :: tt) with
    | none => unfold branchISOdt; rw [hm]
    | some x => exact absurd (matchISOdt_mem hm) hdash
  have hb5 : branchISOd ((a :: w') ++ ' ' :: tt) base cfg = none := by
    cases hm : matchISOd ((a :: w') ++ ' ' :: tt) with
    | none => unfold branchISOd; rw [hm]
    | some x => exact absurd (matchISOd_mem hm) hdash
  have hb6 : branchFDT ((a :: w') ++ ' ' :: tt) base = none := by
    cases hm : matchFDT ((a :: w') ++ ' ' :: tt) with
    | none => unfold branchFDT; rw [hm]
    | some x => exact absurd (matchFDT_mem hm) hslash
  have hb7 : branchFD ((a :: w') ++ ' ' :: tt) base cfg = none := by
    cases hm : matchFD ((a :: w') ++ ' ' :: tt) with
    | none => unfold branchFD; rw [hm]
    | some x => exact absurd (matchFD_mem hm) hslash
  have hb8 : branchMonthDay ((a :: w') ++ ' ' :: tt) base cfg = none := by
    cases hm : matchMonthDay ((a :: w') ++ ' ' :: tt) with
    | none => unfold branchMonthDay; rw [hm]
    | some x =>
      exfalso
      obtain ⟨⟨a', t', heq, ha'⟩, -⟩ := matchMonthDay_some_facts hm
      rw [List.cons_append] at heq
      injection heq with h1 h2
      rw [← h1] at ha'
      rw [lowerC_not_digit ha] at ha'
      cases ha'
  simp only [parseCore, hb1, hb2, hb3, hb4, hb5, hb6, hb7, hb8,
    orElse_none'] at hcore
  unfold branchWdTime at hcore
  rw [matchWdTime_pos hne hlow htt] at hcore
  dsimp only at hcore
  rw [hlk] at hcore
  dsimp only at hcore
  cases hptp : parse_time_part tt with
  | none =>
    rw [hptp] at hcore
    simp only [orElse_some', Option.getD_some] at hcore
    exact absurd hcore (by simp)
  | some h =>
    rw [hptp] at hcore
    simp only [orElse_some', Option.getD_some] at hcore
    injection hcore with hcore
    rw [← hcore]
    exact next_weekday_gt base wd (some h) cfg hwd6

theorem parseCore_domform_gt {l : List Char} {base cfg r : Nat}
    (hne : l ≠ []) (hall : ∀ c ∈ l, isDigitC c = true)
    (hcore : parseCore l base cfg = .ok r) : base < r := by
  obtain ⟨a, t, rfl⟩ : ∃ a t, l = a :: t := by
    cases l with
    | nil => exact absurd rfl hne
    | cons a t => exact ⟨a, t, rfl⟩
  have ha : isDigitC a = true := hall a (by simp)
  have hnows : ∀ c ∈ a :: t, isWsC c = false := fun c hc => digitC_not_ws (hall c hc)
  have hdash : '-' ∉ a :: t := fun hm => digitC_ne_dash (hall _ hm) rfl
  have hslash : '/' ∉ a :: t := fun hm => digitC_ne_slash (hall _ hm) rfl
  have hb1 : branchToday (a :: t) base = none := by
    unfold branchToday
    rw [if_neg]
    intro heq
    injection heq with h1 h2
    rw [h1] at ha
    exact absurd ha (by decide)
  have hb2 : branchTomorrow (a :: t) base = none := by
    unfold branchTomorrow
    rw [if_neg]
    intro heq
    injection heq with h1 h2
    rw [h1] at ha
    exact absurd ha (by decide)
  have hb3 : branchNext (a :: t) base = none := by
    cases hm : matchNext (a :: t) with
    | none => unfold branchNext; rw [hm]
    | some x =>
      exfalso
      obtain ⟨rest, hrest⟩ := matchNext_some_head hm
      injection hrest with h1 h2
      rw [h1] at ha
      exact absurd ha (by decide)
  have hb4 : branchISOdt (a :: t) base = none := by
    cases hm : matchISOdt (a :: t) with
    | none => unfold branchISOdt; rw [hm]
    | some x => exact absurd (matchISOdt_mem hm) hdash
  have hb5 : branchISOd (a :: t) base cfg = none := by
    cases hm : matchISOd (a :: t) with
    | none => unfold branchISOd; rw [hm]
    | some x => exact absurd (matchISOd_mem hm) hdash
  have hb6 : branchFDT (a :: t) base = none := by
    cases hm : matchFDT (a :: t) with
    | none => unfold branchFDT; rw [hm]
    | some x => exact absurd (matchFDT_mem hm) hslash
  have hb7 : branchFD (a :: t) base cfg = none := by
    cases hm : matchFD (a :: t) with
    | none => unfold branchFD; rw [hm]
    | some x => exact absurd (matchFD_mem hm) hslash
  have hb8 : branchMonthDay (a :: t) base cfg = none := by
    cases hm : matchMonthDay (a :: t) with
    | none => unfold branchMonthDay; rw [hm]
    | some x =>
      exfalso
      obtain ⟨-, c, hc, hwsc⟩ := matchMonthDay_some_facts hm
      rw [hnows c hc] at hwsc
      cases hwsc
  have hb9 : branchWdTime (a :: t) base cfg = none := by
    cases hm : matchWdTime (a :: t) with
    | none => unfold branchWdTime; rw [hm]
    | some x =>
      exfalso
      obtain ⟨a', t', heq, ha'⟩ := matchWdTime_some_head hm
      injection heq with h1 h2
      rw [← h1] at ha'
      rw [digitC_not_lower ha] at ha'
      cases ha'
  have hb10 : branchWdBare (a :: t) base cfg = none := by
    cases hlk : lookupL WEEKDAY_NAMES (a :: t) with
    | none => unfold branchWdBare; rw [hlk]
    | some wd =>
      exfalso
      have hfacts := weekday_table_facts _ (lookupL_eq_some_mem hlk)
      have := hfacts.1 a (by simp)
      rw [digitC_not_lower ha] at this
      cases this
  have hb11 : branchNumUnit (a :: t) base = none := by
    cases hm : matchNumUnit (a :: t) with
    | none => unfold branchNumUnit; rw [hm]
    | some x =>
      exfalso
      obtain ⟨c, hc, hwsc⟩ := matchNumUnit_some_ws hm
      rw [hnows c hc] at hwsc
      cases hwsc
  simp only [parseCore, hb1, hb2, hb3, hb4, hb5, hb6, hb7, hb8, hb9, hb10, hb11,
    orElse_none'] at hcore
  unfold branchDom at hcore
  rw [if_pos ⟨hne, by
    simp only [List.all_eq_true]
    exact hall⟩] at hcore
  simp only [Option.getD_some] at hcore
  cases hnd : next_day_of_month base (natOfDigits (a :: t)) none cfg with
  | none =>
    rw [hnd] at hcore
    exact absurd hcore (by simp)
  | some r0 =>
    rw [hnd] at hcore
    injection hcore with hcore
    rw [← hcore]
    exact next_day_of_month_gt base (natOfDigits (a :: t)) none cfg r0 hnd

/-! ### Claim C1: relative/weekday/day-of-month inputs resolve strictly
after `now` (corrected: the relative form needs a positive integer) -/

/-- The relative grammar form `"<integer> <unit>"`, with a positive
integer (the amendment). -/
def RelFormPos (l : List Char) : Prop :=
  ∃ nl s, l = nl ++ ' ' :: s ∧ nl ≠ [] ∧ (∀ c ∈ nl, isDigitC c = true)
    ∧ 1 ≤ natOfDigits nl ∧ s ≠ [] ∧ (∀ c ∈ s, isLowerC c = true)
    ∧ (normalize_unit s).isSome

/-- The bare-weekday grammar form. -/
def WdBareForm (l : List Char) : Prop := ∃ wd, lookupL WEEKDAY_NAMES l = some wd

/-- The weekday-plus-time grammar form. -/
def WdTimeForm (l : List Char) : Prop :=
  ∃ w tt wd, l = w ++ ' ' :: tt ∧ lookupL WEEKDAY_NAMES w = some wd
    ∧ matchTimeTok tt = true

/-- The day-of-month grammar form (a bare integer). -/
def DomForm (l : List Char) : Prop := l ≠ [] ∧ ∀ c ∈ l, isDigitC c = true

/-- C1, counterexample to the claim as stated: `"0 seconds"` is in the
relative grammar form (`\d+` matches `"0"`), parses successfully, and its
trigger instant equals `now` — it is not strictly in the future. -/
theorem claim_C1_counterexample :
    parse_reminder "0 seconds".toList 42 9 = (some 42, none, none)
      ∧ ¬ (42 < 42) := ⟨by decide, by omega⟩

/-- C1 as amended: for every input whose preprocessed text is in the
relative form with a positive integer, the weekday form (bare or with a
time), or the day-of-month form, a successful parse returns a trigger
instant strictly greater than the reference instant. -/
theorem claim_C1 (raw : List Char) (base cfg r : Nat)
    (hform : RelFormPos (effText raw) ∨ WdBareForm (effText raw)
      ∨ WdTimeForm (effText raw) ∨ DomForm (effText raw))
    (hr : (parse_reminder raw base cfg).1 = some r) : base < r := by
  have hraw : raw ≠ [] := by
    rintro rfl
    rw [show parse_reminder [] base cfg = (none, some .emptyText, none) from rfl] at hr
    exact absurd hr (by simp)
  unfold parse_reminder at hr
  rw [if_neg hraw] at hr
  cases hcore : parseCore (effText raw) base cfg with
  | error e =>
    rw [hcore] at hr
    exact absurd hr (by simp)
  | ok r0 =>
    rw [hcore] at hr
    have hr0 : r0 = r := by
      dsimp only at hr
      exact Option.some.inj hr
    subst hr0
    rcases hform with hA | hB | hBT | hC
    · obtain ⟨nl, s, heq, hnl, hnld, hn1, hs, hsl, hnorm⟩ := hA
      rw [heq] at hcore
      exact parseCore_relform_gt hnl hnld hn1 hs hsl hnorm hcore
    · obtain ⟨wd, hlk⟩ := hB
      exact parseCore_wdbare_gt hlk hcore
    · obtain ⟨w, tt, wd, heq, hlk, htt⟩ := hBT
      rw [heq] at hcore
      exact parseCore_wdtime_gt hlk htt hcore
    · exact parseCore_domform_gt hC.1 hC.2 hcore

/-- C1, witness: the three families at concrete inputs (`"2 hours"`,
`"monday"`, `"mon 9pm"`, `"25"`) all land strictly after `now = 0`. -/
theorem claim_C1_witness :
    ((parse_reminder "2 hours".toList 0 9).1 = some 7200000000 ∧ 0 < 7200000000)
      ∧ ((parse_reminder "monday".toList 0 9).1 = some 32400000000
          ∧ 0 < 32400000000)
      ∧ ((parse_reminder "mon 9pm".toList 0 9).1 = some 75600000000
          ∧ 0 < 75600000000)
      ∧ ((parse_reminder "25".toList 0 9).1 = some 2106000000000
          ∧ 0 < 2106000000000) := by
  refine ⟨⟨by decide, ?_⟩, ⟨by decide, ?_⟩, ⟨by decide, ?_⟩, ⟨by decide, ?_⟩⟩
  · exact claim_C1 "2 hours".toList 0 9 7200000000
      (Or.inl ⟨['2'], "hours".toList, by decide, by decide, by decide, by decide,
        by decide, by decide, by decide⟩) (by decide)
  · exact claim_C1 "monday".toList 0 9 32400000000
      (Or.inr (Or.inl ⟨0, by decide⟩)) (by decide)
  · exact claim_C1 "mon 9pm".toList 0 9 75600000000
      (Or.inr (Or.inr (Or.inl ⟨"mon".toList, "9pm".toList, 0, by decide, by decide,
        by decide⟩))) (by decide)
  · exact claim_C1 "25".toList 0 9 2106000000000
      (Or.inr (Or.inr (Or.inr ⟨by decide, by decide⟩))) (by decide)

/-! ### Claim C5: `"next <unit>"` (corrected: seconds and minutes are not
supported) -/

/-- The offset of exactly one canonical unit under the `"next <unit>"`
branch (months/quarters/years/decades approximated as 30/90/365/3650
days). -/
def specNextOffset (u : List Char) : Nat :=
  if u = "hours".toList then usPerHour
  else if u = "days".toList then usPerDay
  else if u = "weeks".toList then 7 * usPerDay
  else if u = "months".toList then 30 * usPerDay
  else if u = "quarters".toList then 90 * usPerDay
  else if u = "years".toList then 365 * usPerDay
  else if u = "decades".toList then 3650 * usPerDay
  else 0

/-- C5, counterexample to the claim as stated: `"seconds"` is a canonical
unit (`normalize_unit` maps it to itself), yet `"next seconds"` fails to
parse — the `next` branch supports only hours and larger units. -/
theorem claim_C5_counterexample :
    normalize_unit "seconds".toList = some "seconds".toList
      ∧ parse_reminder "next seconds".toList 0 9
          = (none, some (.unknownNextUnit "seconds".toList), none) := by
  constructor <;> rfl

/-- C5 as amended: for every canonical unit u other than seconds and
minutes, and every word that normalizes to u, `"next <word>"` parses at any
reference instant to exactly `now` plus one canonical unit of offset, with
months/quarters/years/decades approximated as 30/90/365/3650 days.
(`"next seconds"` and `"next minutes"` and their abbreviations are rejected
instead, as the counterexample shows.) -/
theorem claim_C5 (raw s u : List Char) (base cfg : Nat)
    (heff : effText raw = "next".toList ++ ' ' :: s)
    (hs : s ≠ []) (hw : ∀ c ∈ s, isWordC c = true)
    (hnorm : normalize_unit s = some u)
    (hu1 : u ≠ "seconds".toList) (hu2 : u ≠ "minutes".toList) :
    (parse_reminder raw base cfg).1 = some (base + specNextOffset u)
      ∧ (parse_reminder raw base cfg).2.1 = none := by
  have hraw : raw ≠ [] := by
    rintro rfl
    rw [show effText [] = [] from rfl] at heff
    exact absurd heff (by simp)
  have hb1 : branchToday ("next".toList ++ ' ' :: s) base = none := by
    unfold branchToday
    rw [if_neg]
    intro h
    have h' : 'n' :: ("ext".toList ++ ' ' :: s) = 't' :: "oday".toList := h
    injection h' with h1 h2
    exact absurd h1 (by decide)
  have hb2 : branchTomorrow ("next".toList ++ ' ' :: s) base = none := by
    unfold branchTomorrow
    rw [if_neg]
    intro h
    have h' : 'n' :: ("ext".toList ++ ' ' :: s) = 't' :: "omorrow".toList := h
    injection h' with h1 h2
    exact absurd h1 (by decide)
  have hcore : parseCore ("next".toList ++ ' ' :: s) base cfg
      = .ok (base + specNextOffset u) := by
    simp only [parseCore, hb1, hb2, orElse_none']
    unfold branchNext
    rw [matchNext_pos hs hw]
    dsimp only
    rw [hnorm]
    dsimp only
    simp only [orElse_some', Option.getD_some]
    have hucan := normalize_unit_canonical' hnorm
    unfold canonicalUnits at hucan
    fin_cases hucan
    · exact absurd rfl hu1
    · exact absurd rfl hu2
    · rw [if_pos rfl]
      unfold specNextOffset
      rw [if_pos rfl]
    · rw [if_neg (by decide), if_pos rfl]
      unfold specNextOffset
      rw [if_neg (by decide), if_pos rfl]
    · rw [if_neg (by decide), if_neg (by decide), if_pos rfl]
      unfold specNextOffset
      rw [if_neg (by decide), if_neg (by decide), if_pos rfl]
    · rw [if_neg (by decide), if_neg (by decide), if_neg (by decide), if_pos rfl]
      unfold specNextOffset
      rw [if_neg (by decide), if_neg (by decide), if_neg (by decide), if_pos rfl]
    · rw [if_neg (by decide), if_neg (by decide), if_neg (by decide), if_neg (by decide),
        if_pos rfl]
      unfold specNextOffset
      rw [if_neg (by decide), if_neg (by decide), if_neg (by decide), if_neg (by decide),
        if_pos rfl]
    · rw [if_neg (by decide), if_neg (by decide), if_neg (by decide), if_neg (by decide),
        if_neg (by decide), if_pos rfl]
      unfold specNextOffset
      rw [if_neg (by decide), if_neg (by decide), if_neg (by decide), if_neg (by decide),
        if_neg (by decide), if_pos rfl]
    · rw [if_neg (by decide), if_neg (by decide), if_neg (by decide), if_neg (by decide),
        if_neg (by decide), if_neg (by decide), if_pos rfl]
      unfold specNextOffset
      rw [if_neg (by decide), if_neg (by decide), if_neg (by decide), if_neg (by decide),
        if_neg (by decide), if_neg (by decide), if_pos rfl]
  unfold parse_reminder
  rw [if_neg hraw, heff, hcore]
  exact ⟨rfl, rfl⟩

/-- C5, witness: `"next hr"` (an abbreviation of hours) at `now = 0`. -/
theorem claim_C5_witness :
    (parse_reminder "next hr".toList 0 9).1 = some (0 + specNextOffset "hours".toList)
      ∧ (parse_reminder "next hr".toList 0 9).2.1 = none :=
  claim_C5 "next hr".toList "hr".toList "hours".toList 0 9 (by decide) (by decide)
    (by decide) (by decide) (by decide) (by decide)
